import Mathlib

/-!
Verification development for the `wordpress-scrape` repository.

The repository is a small Next.js application with two API routes:

* `src/app/api/scrape/route.ts` — fingerprints a target site: fetches the
  page, extracts WordPress/PHP/Apache versions, detects plugins through six
  methods (asset paths, HTML comments, generator meta tags, wp-json
  namespaces, a plugin-directory listing probe, premium fingerprints),
  resolves the theme, and queries a registry for latest plugin versions.
* `src/app/api/analyze/route.ts` (with a variant carrying
  `retryWithBackoff`) — forwards a prompt to a language-model API.

This file gives a shallow embedding of that code.  Pure string manipulation
(the JS regexes, slug normalization, semver validation/comparison from the
`semver` npm package) is embedded character-precisely over `List Char`.
The DOM layer (cheerio selectors) and JSON parsing are represented as
pre-extracted views: a `Doc` structure holds, field by field, exactly the
values the route reads off the parsed document (`$('title').text()`,
`$(elem).attr('href')`, …), and an `HttpResp` holds the status, the named
headers the route reads, the body text, and the parsed views the route
obtains from `response.json()` / a cheerio pass over the body.  Network
effects are modelled by a `Net := String → Option HttpResp` oracle
(`none` = the fetch throws) and every performed fetch is recorded, in
program order, in a trace returned next to the response.
-/

/-! ## Character classes used by the route's regexes -/

/-- JS regex `[0-9.]` / `[\d.]` character class. -/
def isDigitDot (c : Char) : Bool := c.isDigit || c = '.'

/-- JS regex `\s` class (the whitespace characters relevant here). -/
def isWsChar (c : Char) : Bool :=
  c = ' ' || c = '\t' || c = '\n' || c = '\r' || c.toNat = 11 || c.toNat = 12 || c.toNat = 160

/-- Lowercase-ASCII letter or digit: the `[a-z0-9]` class (stated over
code points to keep the arithmetic explicit). -/
def isLowerAlnum (c : Char) : Bool :=
  (97 ≤ c.toNat && c.toNat ≤ 122) || (48 ≤ c.toNat && c.toNat ≤ 57)

/-- The `[a-z0-9-]` class kept by `normalizePluginSlug`'s first replace. -/
def isSlugChar (c : Char) : Bool := isLowerAlnum c || c = '-'

/-- Character-wise model of JS `String.prototype.toLowerCase` (ASCII range,
which is all the repository's inputs exercise). -/
def lowerChar (c : Char) : Char :=
  if 65 ≤ c.toNat && c.toNat ≤ 90 then Char.ofNat (c.toNat + 32) else c

/-- JS `toLowerCase` on a whole string. -/
def jsToLower (s : String) : String := ⟨s.data.map lowerChar⟩

/-! ## Generic scanners for the literal-plus-capture regexes

Every version-extraction regex in the route has the shape
"literal text, optional whitespace, then a nonempty capture from a character
class" (plus a couple of variants handled below).  A JS regex engine tries
each start position left to right; at a position where the literal matches
but the capture would be empty it moves on one character.  The scanners
below implement exactly that discipline. -/

/-- Is `pre` a prefix of `l`? -/
def isPre (pre l : List Char) : Bool := List.isPrefixOf pre l

/-- Case-insensitive prefix test (for `/i` regexes). -/
def isPreCI (pre l : List Char) : Bool :=
  List.isPrefixOf (pre.map lowerChar) (l.map lowerChar)

/-- One position of the scan of `litWsCapAux`: `pre`, then — when `ws?` is
`some n` — a greedy whitespace run of at least `n` characters (the regex
`\s*` for `n = 0`, `\s+` for `n = 1`; all the route's captures start from
classes disjoint from `\s`, so the greedy/maximal reading is exact), then a
nonempty capture of `good` characters.  `ws? = none` means the pattern has
no whitespace token and the capture must start immediately after the
literal.  `ci` selects case-insensitive matching of the literal. -/
def capStart (ws? : Option Nat) (after : List Char) : Option (List Char) :=
  match ws? with
  | none => some after
  | some minWs =>
    let ws := after.takeWhile isWsChar
    if minWs ≤ ws.length then some (List.drop ws.length after) else none

def capHere (ci : Bool) (pre : List Char) (ws? : Option Nat) (good : Char → Bool)
    (l : List Char) : Option (List Char) :=
  if (if ci then isPreCI pre l else isPre pre l) then
    match capStart ws? (List.drop pre.length l) with
    | none => none
    | some start =>
      let cap := start.takeWhile good
      if cap.isEmpty then none else some cap
  else none

def litWsCapAux (ci : Bool) (pre : List Char) (ws? : Option Nat) (good : Char → Bool) :
    List Char → Option (List Char)
  | [] => none
  | c :: rest =>
    match capHere ci pre ws? good (c :: rest) with
    | some cap => some cap
    | none => litWsCapAux ci pre ws? good rest

/-- `/<pre>([<good>]+)/`: literal then (immediately) a nonempty capture. -/
def litCap (pre : String) (good : Char → Bool) (s : String) : Option String :=
  (litWsCapAux false pre.data none good s.data).map List.asString

/-- Case-insensitive variant of the scanner, whitespace mode explicit —
e.g. `/Apache\s+([0-9.]+)/i` is `reCapCI "Apache" (some 1) …` and
`/Apache\/([0-9.]+)/i` is `reCapCI "Apache/" none …`. -/
def reCapCI (pre : String) (ws? : Option Nat) (good : Char → Bool) (s : String) :
    Option String :=
  (litWsCapAux true pre.data ws? good s.data).map List.asString

/-- Literal then `\s`≥`minWs` then capture — e.g. `/WordPress\s+([\d.]+)/`
is `litWsCap "WordPress" 1 …`, `/Stable tag:\s*([0-9.]+)/` is
`litWsCap "Stable tag:" 0 …`. -/
def litWsCap (pre : String) (minWs : Nat) (good : Char → Bool) (s : String) :
    Option String :=
  (litWsCapAux false pre.data (some minWs) good s.data).map List.asString

/-- Does `sub` occur in `l` (JS `String.prototype.includes`)? -/
def containsSub (l sub : List Char) : Bool :=
  match l with
  | [] => sub.isEmpty
  | _ :: rest => isPre sub l || containsSub rest sub

/-- JS `s.includes(sub)`. -/
def jsIncludes (s sub : String) : Bool := containsSub s.data sub.data

/-- JS `s.startsWith(sub)`. -/
def jsStartsWith (s sub : String) : Bool := isPre sub.data s.data

/-- JS `s.endsWith(sub)`. -/
def jsEndsWith (s sub : String) : Bool :=
  isPre sub.data.reverse s.data.reverse

/-! ## `normalizePluginSlug` (src/app/api/scrape/route.ts lines 31–38)

```ts
function normalizePluginSlug(name: string): string {
  return name
    .toLowerCase()
    .replace(/[^a-z0-9-]/g, '-') // Replace non-alphanumeric chars with hyphens
    .replace(<hyphen-run regex>, '-')   // Replace multiple hyphens with single
    .replace(/^-|-$/g, '');      // Remove leading/trailing hyphens
}
```
-/

/-- `replace(/[^a-z0-9-]/g, '-')` on one character. -/
def replChar (c : Char) : Char := if isSlugChar c then c else '-'

/-- The second replace (hyphen-run regex, global): collapse every run of
hyphens to a single one. -/
def collapseHyphens : List Char → List Char
  | [] => []
  | [c] => [c]
  | c :: d :: rest =>
    if c = '-' && d = '-' then collapseHyphens (d :: rest)
    else c :: collapseHyphens (d :: rest)

/-- The `^-` half of `replace(/^-|-$/g, '')`: drop one leading hyphen. -/
def dropLeadHyphen : List Char → List Char
  | [] => []
  | c :: rest => if c = '-' then rest else c :: rest

/-- The `-$` half of `replace(/^-|-$/g, '')`: drop one trailing hyphen. -/
def dropTrailHyphen : List Char → List Char
  | [] => []
  | [c] => if c = '-' then [] else [c]
  | c :: d :: rest => c :: dropTrailHyphen (d :: rest)

/-- `normalizePluginSlug` from the route, composed exactly as in the source:
lowercase, map non-`[a-z0-9-]` to `-`, collapse hyphen runs, strip one
leading and one trailing hyphen (after collapsing there is at most one of
each, so this matches the single-pass `/^-|-$/g`). -/
def normalizePluginSlug (name : String) : String :=
  ⟨dropTrailHyphen (dropLeadHyphen (collapseHyphens
    ((name.data.map lowerChar).map replChar)))⟩

/-! The spec's slug shape `^[a-z0-9]+(-[a-z0-9]+)*$` as a matcher. -/

/-- Matcher for the tail of `[a-z0-9]+(-[a-z0-9]+)*`: accepts a string that
continues the pattern after at least one `[a-z0-9]` has been consumed. -/
def slugPatAux : List Char → Bool
  | [] => true
  | c :: rest =>
    if c = '-' then
      match rest with
      | [] => false
      | d :: r2 => isLowerAlnum d && slugPatAux r2
    else isLowerAlnum c && slugPatAux rest

/-- Full-string matcher for `^[a-z0-9]+(-[a-z0-9]+)*$`. -/
def slugPat (s : String) : Bool :=
  match s.data with
  | [] => false
  | c :: rest => isLowerAlnum c && slugPatAux rest

example : normalizePluginSlug "Advanced Custom Fields Pro" = "advanced-custom-fields-pro" := by decide
example : normalizePluginSlug "--Hello__World--" = "hello-world" := by decide
example : slugPat "advanced-custom-fields-pro" = true := by decide
example : slugPat "-a" = false := by decide

/-! ## The `semver` npm package: strict `valid` and `gte`

The route imports `semver` and uses only `semver.valid` (truthiness) and
`semver.gte`, always in non-loose mode.  Strict parsing accepts
`[v]? N . N . N [- prerelease] [+ build]` after trimming, where each `N` is
`0` or a digit string without a leading zero no larger than
`Number.MAX_SAFE_INTEGER`, prerelease identifiers are `[0-9A-Za-z-]+`
(all-digit ones without leading zero), and build identifiers are
`[0-9A-Za-z-]+`.  A string longer than 256 characters is rejected. -/

/-- A prerelease identifier: numeric (compared as a number) or textual. -/
inductive PreId where
  | num (n : Nat)
  | str (s : List Char)
deriving DecidableEq

/-- `[0-9A-Za-z-]`, the semver identifier character class. -/
def isIdChar (c : Char) : Bool :=
  c.isDigit || ('a' ≤ c && c ≤ 'z') || ('A' ≤ c && c ≤ 'Z') || c = '-'

/-- Digit run to a number. -/
def natOfDigits (l : List Char) : Nat :=
  l.foldl (fun a c => a * 10 + (c.toNat - 48)) 0

/-- `Number.MAX_SAFE_INTEGER`. -/
def maxSafeInteger : Nat := 2 ^ 53 - 1

/-- Parse one main-version numeric identifier: `0` or `[1-9][0-9]*`, with
the MAX_SAFE_INTEGER bound enforced by the `SemVer` constructor. -/
def parseNumId (l : List Char) : Option (Nat × List Char) :=
  match l with
  | [] => none
  | c :: rest =>
    if c = '0' then some (0, rest)
    else if c.isDigit then
      let run := (c :: rest).takeWhile Char.isDigit
      let n := natOfDigits run
      if n ≤ maxSafeInteger then some (n, List.drop run.length (c :: rest)) else none
    else none

/-- Expect a single character. -/
def expectChar (c : Char) (l : List Char) : Option (List Char) :=
  match l with
  | [] => none
  | d :: rest => if d = c then some rest else none

/-- One prerelease identifier (`0|[1-9]\d*|\d*[a-zA-Z-][0-9a-zA-Z-]*`),
classified the way the `SemVer` constructor does. -/
def parsePreId (l : List Char) : Option (PreId × List Char) :=
  let run := l.takeWhile isIdChar
  if run.isEmpty then none
  else
    let rest := List.drop run.length l
    if run.all Char.isDigit then
      match run with
      | '0' :: _ :: _ => none   -- all-digit identifier with a leading zero
      | _ =>
        let n := natOfDigits run
        if n < maxSafeInteger then some (.num n, rest) else some (.str run, rest)
    else some (.str run, rest)

/-- Dot-separated prerelease identifiers; `fuel` bounds recursion by the
remaining string length. -/
def parsePreIds (fuel : Nat) (l : List Char) : Option (List PreId × List Char) :=
  match fuel with
  | 0 => none
  | fuel + 1 =>
    match parsePreId l with
    | none => none
    | some (p, rest) =>
      match rest with
      | '.' :: rest2 =>
        match parsePreIds fuel rest2 with
        | none => none
        | some (ps, rest3) => some (p :: ps, rest3)
      | _ => some ([p], rest)

/-- Dot-separated build identifiers (content ignored by comparison). -/
def parseBuildIds (fuel : Nat) (l : List Char) : Option (List Char) :=
  match fuel with
  | 0 => none
  | fuel + 1 =>
    let run := l.takeWhile isIdChar
    if run.isEmpty then none
    else
      let rest := List.drop run.length l
      match rest with
      | '.' :: rest2 => parseBuildIds fuel rest2
      | _ => some rest

/-- A parsed semantic version (build metadata dropped, as for comparison). -/
structure SemVer where
  major : Nat
  minor : Nat
  patch : Nat
  pre : List PreId
deriving DecidableEq

/-- Strict (non-loose) parse, `null` on failure — the npm `semver.valid`
modulo returning the parse instead of the cleaned string. -/
def parseSemver (s : String) : Option SemVer :=
  if 256 < s.data.length then none
  else
    let t0 := (s.data.dropWhile isWsChar).reverse.dropWhile isWsChar |>.reverse
    let t := match t0 with
      | 'v' :: rest => rest
      | _ => t0
    match parseNumId t with
    | none => none
    | some (maj, r1) =>
      match expectChar '.' r1 with
      | none => none
      | some r2 =>
        match parseNumId r2 with
        | none => none
        | some (min, r3) =>
          match expectChar '.' r3 with
          | none => none
          | some r4 =>
            match parseNumId r4 with
            | none => none
            | some (pat, r5) =>
              let (pre, r6) := match r5 with
                | '-' :: r5' =>
                  match parsePreIds (r5'.length + 1) r5' with
                  | some (ps, rest) => (some ps, rest)
                  | none => (none, r5)
                | _ => (some [], r5)
              match pre with
              | none => none
              | some ps =>
                match r6 with
                | [] => some ⟨maj, min, pat, ps⟩
                | '+' :: r7 =>
                  match parseBuildIds (r7.length + 1) r7 with
                  | some [] => some ⟨maj, min, pat, ps⟩
                  | _ => none
                | _ => none

/-- Truthiness of `semver.valid(s)`. -/
def semverValid (s : String) : Bool := (parseSemver s).isSome

/-- `compareIdentifiers` from the npm package: numbers before strings,
numbers numerically, strings by UTF-16 code-unit order. -/
def cmpPreId (a b : PreId) : Ordering :=
  match a, b with
  | .num x, .num y => compare x y
  | .num _, .str _ => .lt
  | .str _, .num _ => .gt
  | .str x, .str y => compare (x.map Char.toNat) (y.map Char.toNat)

/-- Prerelease list comparison: a version with a prerelease sorts below one
without; otherwise identifier-wise, exhausting first sorts lower. -/
def cmpPre : List PreId → List PreId → Ordering
  | [], [] => .eq
  | [], _ :: _ => .gt
  | _ :: _, [] => .lt
  | a :: as', b :: bs' =>
    match cmpPreId a b with
    | .eq => cmpPre as' bs'
    | o => o

/-- `semver.compare` on parsed versions. -/
def cmpSemver (a b : SemVer) : Ordering :=
  match compare a.major b.major with
  | .eq =>
    match compare a.minor b.minor with
    | .eq =>
      match compare a.patch b.patch with
      | .eq => cmpPre a.pre b.pre
      | o => o
    | o => o
  | o => o

/-- `semver.gte(a, b)` for strings already known valid (the route only
calls it under `semver.valid` guards; on invalid input npm throws, which the
guards make unreachable). -/
def semverGte (a b : String) : Bool :=
  match parseSemver a, parseSemver b with
  | some x, some y => cmpSemver x y ≠ .lt
  | _, _ => false

example : semverValid "1.2.3" = true := by decide
example : semverValid "1.0" = false := by decide
example : semverValid "v1.2.3-alpha.1+build" = true := by decide
example : semverValid "01.2.3" = false := by decide
example : semverValid "1.2.3-01" = false := by decide
example : semverGte "1.2.3" "1.2.3" = true := by decide
example : semverGte "1.0.0" "2.0.0" = false := by decide
example : semverGte "6.4.3" "6.4.3" = true := by decide
example : semverGte "1.2.3-alpha" "1.2.3" = false := by decide

/-! ## The remaining regex shapes used by the route -/

/-- Occurrence positions (in order) at which the literal `lit` starts in
`l`. -/
def litPositions (lit : List Char) : List Char → List Nat
  | [] => []
  | c :: rest =>
    let tail := (litPositions lit rest).map (· + 1)
    if isPre lit (c :: rest) then 0 :: tail else tail

/-- `/<pre>([<good>]+)<close>/`: literal, nonempty greedy capture, then a
required closing character that is not in the class (so the greedy capture
never backtracks) — e.g. the JSON-ish premium patterns
`"vcVersion":"([0-9.]+)"`. -/
def closeHere (pre : List Char) (good : Char → Bool) (close : Char)
    (l : List Char) : Option (List Char) :=
  if isPre pre l then
    let after := List.drop pre.length l
    let cap := after.takeWhile good
    if cap.isEmpty then none
    else match List.drop cap.length after with
      | d :: _ => if d = close then some cap else none
      | [] => none
  else none

def litCapCloseAux (pre : List Char) (good : Char → Bool) (close : Char) :
    List Char → Option (List Char)
  | [] => none
  | c :: rest =>
    match closeHere pre good close (c :: rest) with
    | some cap => some cap
    | none => litCapCloseAux pre good close rest

/-- String-level wrapper for `litCapCloseAux`. -/
def litCapClose (pre : String) (good : Char → Bool) (close : Char) (s : String) :
    Option String :=
  (litCapCloseAux pre.data good close s.data).map List.asString

/-- Does `suffix-start` match one of `(?:min\.)?(?:js|css)`? -/
def minJsCss (l : List Char) : Bool :=
  isPre "min.js".data l || isPre "min.css".data l ||
    isPre "js".data l || isPre "css".data l

/-- `/<mark>([0-9.]+)\.(?:min\.)?(?:js|css)/` with `mark` a single
character (`.` or `-`).  After the marker the regex takes a `[0-9.]` run;
since `min`/`js`/`css` contain no `[0-9.]` character, the escaped dot can
only consume the run's final character, so the pattern matches exactly when
the maximal run ends in a dot, the rest of the run is nonempty (the
capture), and `min.js|min.css|js|css` follows the run. -/
def markVerHere (mark : Char) (c : Char) (rest : List Char) :
    Option (List Char) :=
  if c = mark then
    let run := rest.takeWhile isDigitDot
    match run.reverse with
    | [] => none
    | e :: revCap =>
      if e = '.' then
        if revCap.isEmpty then none
        else if minJsCss (List.drop run.length rest) then some revCap.reverse
        else none
      else none
  else none

def markVerAux (mark : Char) : List Char → Option (List Char)
  | [] => none
  | c :: rest =>
    match markVerHere mark c rest with
    | some cap => some cap
    | none => markVerAux mark rest

/-- `/\.([0-9.]+)\.(?:min\.)?(?:js|css)/`. -/
def dotVer (s : String) : Option String := (markVerAux '.' s.data).map List.asString

/-- `/\-([0-9.]+)\.(?:min\.)?(?:js|css)/`. -/
def dashVer (s : String) : Option String := (markVerAux '-' s.data).map List.asString

/-- `/version then one of = / -([0-9.]+)/i`: case-insensitive literal `version`, one
separator character, then a nonempty `[0-9.]` capture. -/
def versionSepHere (l : List Char) : Option (List Char) :=
  if isPreCI "version".data l then
    match List.drop 7 l with
    | d :: after =>
      if d = '=' || d = '/' || d = '-' then
        let cap := after.takeWhile isDigitDot
        if cap.isEmpty then none else some cap
      else none
    | [] => none
  else none

def versionSepVerAux : List Char → Option (List Char)
  | [] => none
  | c :: rest =>
    match versionSepHere (c :: rest) with
    | some cap => some cap
    | none => versionSepVerAux rest

/-- String-level `/version then one of = / -([0-9.]+)/i`. -/
def versionSepVer (s : String) : Option String :=
  (versionSepVerAux s.data).map List.asString

/-- The asset-path version probe of plugin Method 1 — the four patterns in
source order, accepting the first match:
`?ver=` query parameter, dotted filename version, dashed filename version,
`version then one of = / -` (case-insensitive). -/
def assetVersionMatch (src : String) : Option String :=
  match litCap "?ver=" isDigitDot src with
  | some v => some v
  | none =>
    match dotVer src with
    | some v => some v
    | none =>
      match dashVer src with
      | some v => some v
      | none => versionSepVer src

/-- Lazy mid-pattern literal: `/<pre>.*?<mid>([0-9.]+)/` where `.` does not
cross newlines.  For each occurrence of `pre` (left to right), look for
`mid` within the rest of the same line (earliest first) followed by a
nonempty `[0-9.]` capture — e.g. `\/plugins\/revslider\/.*?ver=([0-9.]+)`. -/
def lazyMidVer (pre mid : String) (s : String) : Option String :=
  let l := s.data
  let scanLine (sameLine : List Char) : Option (List Char) :=
    (litPositions mid.data sameLine).findSome? fun p =>
      let cap := (List.drop (p + mid.data.length) sameLine).takeWhile isDigitDot
      if cap.isEmpty then none else some cap
  ((litPositions pre.data l).findSome? fun p =>
    let after := List.drop (p + pre.data.length) l
    scanLine (after.takeWhile (· ≠ '\n'))).map List.asString

/-! ### HTML-comment plugin annotations (plugin Method 2)

`comment.match(/plugin\s+'([^']+)'\s+version\s+'([^']+)'/)` and the
fallback `comment.match(/Plugin Name:\s*([^\n]+)[\s\S]*?Version:\s*([^\n]+)/)`. -/

/-- Quote character. -/
def quoteChar : Char := Char.ofNat 39

/-- Expect `'` then a nonempty capture of non-quote characters then `'`;
returns the capture and the remainder after the closing quote. -/
def quotedCap (l : List Char) : Option (List Char × List Char) :=
  match l with
  | [] => none
  | c :: rest =>
    if c = quoteChar then
      let cap := rest.takeWhile (· ≠ quoteChar)
      if cap.isEmpty then none
      else match List.drop cap.length rest with
        | d :: r2 => if d = quoteChar then some (cap, r2) else none
        | [] => none
    else none

/-- One-position attempt of `plugin\s+'([^']+)'\s+version\s+'([^']+)'`.
Each greedy token's class excludes the next literal's first character, so
the greedy/maximal reading is exact. -/
def quotedPluginHere (l : List Char) : Option (List Char × List Char) :=
  if isPre "plugin".data l then
    let a := List.drop 6 l
    let ws1 := a.takeWhile isWsChar
    if ws1.isEmpty then none
    else
      match quotedCap (List.drop ws1.length a) with
      | none => none
      | some (name, r1) =>
        let ws2 := r1.takeWhile isWsChar
        if ws2.isEmpty then none
        else
          let r2 := List.drop ws2.length r1
          if isPre "version".data r2 then
            let r3 := List.drop 7 r2
            let ws3 := r3.takeWhile isWsChar
            if ws3.isEmpty then none
            else
              match quotedCap (List.drop ws3.length r3) with
              | none => none
              | some (ver, _) => some (name, ver)
          else none
  else none

/-- Scan of the quoted-annotation pattern over a whole comment. -/
def quotedPluginAux : List Char → Option (List Char × List Char)
  | [] => none
  | c :: rest =>
    match quotedPluginHere (c :: rest) with
    | some r => some r
    | none => quotedPluginAux rest

/-- `\s*([^\n]+)` tried at the end of a pattern: greedy whitespace, then a
nonempty non-newline capture, backtracking the whitespace from longest to
shortest (a shorter whitespace run can donate blanks to the capture). -/
def wsThenLineCap (l : List Char) : Option (List Char) :=
  let wsMax := (l.takeWhile isWsChar).length
  (List.range (wsMax + 1)).findSome? fun back =>
    let t := List.drop (wsMax - back) l
    let cap := t.takeWhile (· ≠ '\n')
    if cap.isEmpty then none else some cap

/-- One-position attempt of
`Plugin Name:\s*([^\n]+)[\s\S]*?Version:\s*([^\n]+)`: after the literal,
the engine tries the greedy `\s*` from longest down, for each the greedy
first capture from longest down, then the lazy gap takes `Version:`
occurrences from nearest, and the tail behaves like `wsThenLineCap`. -/
def pluginNameVerHere (l : List Char) : Option (List Char × List Char) :=
  if isPre "Plugin Name:".data l then
    let a := List.drop 12 l
    let wsMax := (a.takeWhile isWsChar).length
    (List.range (wsMax + 1)).findSome? fun back =>
      let t := List.drop (wsMax - back) a
      let capMax := (t.takeWhile (· ≠ '\n')).length
      (List.range capMax).findSome? fun shrink =>
        let len := capMax - shrink
        if len = 0 then none
        else
          let name := t.take len
          let rest := List.drop len t
          (litPositions "Version:".data rest).findSome? fun p =>
            (wsThenLineCap (List.drop (p + 8) rest)).map fun ver => (name, ver)
  else none

/-- Scan of `Plugin Name: … Version: …` over a whole comment. -/
def pluginNameVerAux : List Char → Option (List Char × List Char)
  | [] => none
  | c :: rest =>
    match pluginNameVerHere (c :: rest) with
    | some r => some r
    | none => pluginNameVerAux rest

/-- Plugin Method 2 on one comment: the quoted pattern first, the
`Plugin Name:`/`Version:` pattern as fallback, as in
`comment.match(p1) || comment.match(p2)`. -/
def commentPluginMatch (comment : String) : Option (String × String) :=
  match quotedPluginAux comment.data with
  | some (n, v) => some (n.asString, v.asString)
  | none =>
    match pluginNameVerAux comment.data with
    | some (n, v) => some (n.asString, v.asString)
    | none => none

example : commentPluginMatch "<!-- plugin 'Akismet' version '5.3' -->" = some ("Akismet", "5.3") := by decide
example : commentPluginMatch "<!-- Plugin Name: Foo Bar\nVersion: 2.1 -->" = some ("Foo Bar", "2.1 -->") := by decide
example : assetVersionMatch "/wp-content/plugins/seo/js/main-2.4.1.min.js" = some "4.1" := by decide
example : assetVersionMatch "/a/b.css?ver=9.9" = some "9.9" := by decide
example : dotVer "x.1.2.3.min.js" = some "1.2.3" := by decide
example : lazyMidVer "/plugins/revslider/" "ver=" "<script src=\"/plugins/revslider/rs.js?ver=6.2.1\">" = some "6.2.1" := by decide

/-! ## Data model (the `Plugin` / `Theme` interfaces of the route) -/

/-- `interface Plugin` from src/app/api/scrape/route.ts. -/
structure Plugin where
  name : String
  version : String
  latestVersion : Option String := none
  isUpToDate : Option Bool := none
  versionDetected : Bool
deriving DecidableEq

/-- `interface Theme` from src/app/api/scrape/route.ts. -/
structure Theme where
  name : String
  version : Option String
  isChild : Bool
  parentTheme : Option String := none
deriving DecidableEq

/-- `createPlugin(name, version)` (route lines 75–81):
`version: version || "Unknown"` (JS falsiness: `null` and the empty string
both fall through to `"Unknown"`) and
`versionDetected: version !== null && version !== "Unknown"`. -/
def createPlugin (name : String) (version : Option String) : Plugin :=
  { name := name
    version := match version with
      | some s => if s = "" then "Unknown" else s
      | none => "Unknown"
    versionDetected := match version with
      | some s => decide (s ≠ "Unknown")
      | none => false }

/-- JS `a || b` on two possibly-absent strings: the empty string is falsy. -/
def jsOrS (a b : Option String) : Option String :=
  match a with
  | some s => if s = "" then b else some s
  | none => b

/-- JS truthiness of a possibly-absent string. -/
def truthyS (a : Option String) : Bool :=
  match a with
  | some s => decide (s ≠ "")
  | none => false

/-- JS `a || b` on two plain strings. -/
def jsOrStr (a b : String) : String := if a = "" then b else a

/-- `replace('generator-', '')`: drop the first occurrence of the literal. -/
def stripFirstGen : List Char → List Char
  | [] => []
  | c :: rest =>
    if isPre "generator-".data (c :: rest) then List.drop 10 (c :: rest)
    else c :: stripFirstGen rest

/-- `replace(/\/$/, '')`: drop one trailing slash. -/
def stripTrailSlash (s : String) : String :=
  if jsEndsWith s "/" then ⟨s.data.dropLast⟩ else s

/-- JS `String.prototype.trim`. -/
def jsTrim (s : String) : String :=
  ⟨((s.data.dropWhile isWsChar).reverse.dropWhile isWsChar).reverse⟩

/-! ## Network and parsed-document views

`HttpResp` carries the status, the two headers the route reads, the body
text, and the views the route computes from the body: `jsonNamespaces` is
the `namespaces` array the wp-json branch reads off `response.json()`
(`none` = the JSON parse throws), `jsonVersion` is the `version` field the
registry lookup reads, and `dirEntries` are the `(href, text)` pairs of the
anchors a cheerio pass finds in a directory listing (`text` as returned by
`.text().trim()`). -/

/-- An anchor of a directory-listing page: `$(elem).attr('href')` and
`$(elem).text().trim()`. -/
structure DirEntry where
  href : String
  text : String
deriving DecidableEq

/-- A fetched response, with the parsed views the route reads from it. -/
structure HttpResp where
  status : Nat
  statusText : String
  serverHdr : Option String := none
  xPoweredBy : Option String := none
  body : String := ""
  jsonNamespaces : Option (List String) := none
  jsonVersion : Option String := none
  dirEntries : List DirEntry := []
deriving DecidableEq

/-- `response.ok` of node-fetch: status in [200, 300). -/
def respOk (r : HttpResp) : Bool := 200 ≤ r.status && r.status < 300

/-- The network oracle: `none` means the `fetch` call throws. -/
def Net := String → Option HttpResp

/-- An element matched by `meta[name^="generator-"], link[rel^="generator-"]`
with the four attributes plugin Method 3 reads. -/
structure GenTag where
  nameAttr : Option String := none
  relAttr : Option String := none
  content : Option String := none
  href : Option String := none
deriving DecidableEq

/-- A `link[rel="stylesheet"]` or `script` element in document order;
`url` is `attr('href') || attr('src') || ''`. -/
structure AssetTag where
  isStylesheet : Bool
  url : String
deriving DecidableEq

/-- Everything the route reads off the cheerio-parsed target page:
`$('title').text()`, `$('meta[name="description"]').attr('content')`,
the contents of every `meta[name="generator"]` (the route reads the first's
`content` and tests all of them in the WordPress check),
`$('meta[name="template"]').attr('content')`,
the RSS alternate link's `href`, the stylesheet/script tags, the
HTML comments selected by the comment regex of plugin Method 2, the
`generator-*` meta/link tags of Method 3, every inline script body, and
whether a `link[rel="https://api.w.org/"]` exists. -/
structure Doc where
  title : String := ""
  metaDescription : Option String := none
  metaGenerators : List String := []
  metaTemplate : Option String := none
  rssHref : Option String := none
  assetTags : List AssetTag := []
  pluginComments : List String := []
  generatorTags : List GenTag := []
  scriptBodies : List String := []
  hasApiWOrgLink : Bool := false
deriving DecidableEq

/-! ## Currency checks -/

/-- The three-valued plugin currency computation (route lines 436–439):
`semver.valid(installed) && semver.valid(latest) ? semver.gte(installed,
latest) : undefined`. -/
def computeIsUpToDate (installed latest : String) : Option Bool :=
  if semverValid installed && semverValid latest then
    some (semverGte installed latest)
  else none

/-- `const latestWPVersion = "6.4.3"`. -/
def latestWPVersion : String := "6.4.3"

/-- Core currency (route lines 415–418): `wpVersion !== "Unknown" &&
semver.valid(wpVersion) ? semver.gte(wpVersion, latestWPVersion) : false`. -/
def isWPUpToDateOf (wpVersion : String) : Bool :=
  if wpVersion ≠ "Unknown" && semverValid wpVersion then
    semverGte wpVersion latestWPVersion
  else false

/-- `getLatestPluginVersion(pluginSlug)` (route lines 20–29), returning the
looked-up version together with the URL it fetched.  `data?.version || null`
makes an empty or missing `version` field `null`; a thrown fetch or JSON
parse is caught and yields `null`. -/
def getLatestPluginVersion (net : Net) (pluginSlug : String) :
    Option String × List String :=
  let u := "https://api.wordpress.org/plugins/info/1.0/" ++ pluginSlug ++ ".json"
  (match net u with
   | none => none
   | some r => if respOk r then jsOrS r.jsonVersion none else none,
   [u])

/-- The per-plugin registry pass of POST (route lines 429–441): look up the
normalized slug; on success record `latestVersion` and the three-valued
`isUpToDate`. -/
def registryUpdate (net : Net) (p : Plugin) : Plugin × List String :=
  let r := getLatestPluginVersion net (normalizePluginSlug p.name)
  match r.1 with
  | some latest =>
    ({ p with latestVersion := some latest
              isUpToDate := computeIsUpToDate p.version latest }, r.2)
  | none => (p, r.2)

/-! ## Plugin detection methods of POST -/

/-- One step of plugin Method 1 (route lines 340–358): a stylesheet/script
URL containing the plugin-content marker yields a candidate named by the
path segment after it, skipped when a plugin with the same
case-insensitively-compared name exists, with the version from the
four-pattern probe. -/
def method1Step (plugins : List Plugin) (t : AssetTag) : List Plugin :=
  if jsIncludes t.url "/wp-content/plugins/" then
    match litCap "/wp-content/plugins/" (· ≠ '/') t.url with
    | some name =>
      if plugins.any (fun p => jsToLower p.name == jsToLower name) then plugins
      else plugins ++ [createPlugin name (assetVersionMatch t.url)]
    | none => plugins
  else plugins

/-- One step of plugin Method 2 (route lines 361–373): a comment matching
either annotation pattern yields a candidate, skipped on an exact name
duplicate. -/
def method2Step (plugins : List Plugin) (comment : String) : List Plugin :=
  match commentPluginMatch comment with
  | some (name, version) =>
    if plugins.any (fun p => p.name == name) then plugins
    else plugins ++ [createPlugin name (some version)]
  | none => plugins

/-- One step of plugin Method 3 (route lines 375–382): a `generator-*`
meta/link tag yields a candidate when both the stripped name and the
version (content attribute, else `?ver=` of the href) are truthy, skipped
on an exact name duplicate. -/
def method3Step (plugins : List Plugin) (t : GenTag) : List Plugin :=
  match jsOrS (t.nameAttr.map fun s => ⟨stripFirstGen s.data⟩)
        (t.relAttr.map fun s => ⟨stripFirstGen s.data⟩),
      jsOrS t.content (t.href.bind (litCap "?ver=" isDigitDot)) with
  | some n, some v =>
    if n ≠ "" && v ≠ "" && !(plugins.any (fun p => p.name == n)) then
      plugins ++ [createPlugin n (some v)]
    else plugins
  | _, _ => plugins

/-- JS `namespace.split('/')[0]`. -/
def splitSlashHead (s : String) : String := ⟨s.data.takeWhile (· ≠ '/')⟩

/-- One step of plugin Method 4 (route lines 389–396): a non-core wp-json
namespace yields a name-only candidate, skipped on an exact name
duplicate. -/
def method4Step (plugins : List Plugin) (ns : String) : List Plugin :=
  if ns ≠ "wp/v2" && !(jsStartsWith ns "core") then
    let name := splitSlashHead ns
    if plugins.any (fun p => p.name == name) then plugins
    else plugins ++ [createPlugin name none]
  else plugins

/-- The fixed security-plugin list of the route (lines 400–409). -/
def securityPluginSlugs : List String :=
  ["wordfence", "sucuri-scanner", "all-in-one-wp-security-and-firewall",
   "better-wp-security", "shield-security", "wp-security-audit-log"]

/-- `plugins.some(p => LIST.includes(p.name.toLowerCase()))`. -/
def hasSecurityPluginCheck (plugins : List Plugin) : Bool :=
  plugins.any (fun p => securityPluginSlugs.contains (jsToLower p.name))

/-- The merge step used for directory-scan results (route lines 445–449)
and premium results (route lines 456–460): push the new candidate only when
no existing plugin has the exact same name; an existing entry is never
modified. -/
def mergeByNameStep (plugins : List Plugin) (p : Plugin) : List Plugin :=
  if plugins.any (fun q => q.name == p.name) then plugins
  else plugins ++ [p]

/-! ## Theme detection (`detectTheme`, route lines 174–224) -/

/-- The theme-content path capture of a stylesheet href. -/
def themeContentMatch (href : String) : Option String :=
  litCap "/wp-content/themes/" (· ≠ '/') href

/-- `[^,\s]` — the class of the theme meta-tag capture. -/
def isThemeNameChar (c : Char) : Bool := !(c = ',' || isWsChar c)

/-- Method 1 of `detectTheme`: iterate every stylesheet link, assigning the
theme anew on each theme-content match — so the last match stands. -/
def detectThemeM1 (styleHrefs : List String) : Option Theme :=
  styleHrefs.foldl (fun acc href =>
    match themeContentMatch href with
    | some name =>
      some { name := name, version := litCap "?ver=" isDigitDot href, isChild := false }
    | none => acc) (none : Option Theme)

/-- Method 2 of `detectTheme` (`theme = theme || …`): the
`meta[name="template"] || meta[name="generator"]` content applies only when
Method 1 found nothing. -/
def detectThemeM2 (m1 : Option Theme) (metaTemplate metaGenerator : Option String) :
    Option Theme :=
  match m1 with
  | some t => some t
  | none =>
    match jsOrS metaTemplate metaGenerator with
    | some tag =>
      if tag ≠ "" then
        match reCapCI "theme:" (some 0) isThemeNameChar tag with
        | some n => some { name := n, version := none, isChild := false }
        | none => none
      else none
    | none => none

/-- Method 3 of `detectTheme`: the first theme-content stylesheet whose
href does not contain the resolved theme's path marks it a child and is
recorded as parent. -/
def detectThemeM3 (styleHrefs : List String) (t : Theme) : Theme :=
  let candidates := styleHrefs.filter (fun h =>
    jsIncludes h "/wp-content/themes/" && jsIncludes h "/themes/" &&
      !(jsIncludes h ("/themes/" ++ t.name ++ "/")))
  match candidates.head? with
  | none => t
  | some h =>
    match litCap "/themes/" (· ≠ '/') h with
    | some parent => { t with isChild := true, parentTheme := some parent }
    | none => t

/-- `detectTheme($, html)`: the three methods in source order. -/
def detectTheme (styleHrefs : List String) (metaTemplate metaGenerator : Option String) :
    Option Theme :=
  match detectThemeM2 (detectThemeM1 styleHrefs) metaTemplate metaGenerator with
  | none => none
  | some t => some (detectThemeM3 styleHrefs t)

/-! ## Directory scan (`scanPluginDirectory`, route lines 117–171) -/

/-- The readme probe regex pair:
`/Stable tag:\s*([0-9.]+)/` with `/Version:\s*([0-9.]+)/` as fallback. -/
def readmeVersionMatch (body : String) : Option String :=
  match litWsCap "Stable tag:" 0 isDigitDot body with
  | some v => some v
  | none => litWsCap "Version:" 0 isDigitDot body

/-- The readme upgrade (route lines 155–160): on a version match set
`plugin.version` and `plugin.versionDetected = true` in place. -/
def applyReadme (p : Plugin) (body : String) : Plugin :=
  match readmeVersionMatch body with
  | some w => { p with version := w, versionDetected := true }
  | none => p

/-- One directory-listing anchor considered by `scanPluginDirectory`:
kept when href or text ends in `/`, the href has no `..`, and the text is
none of `Parent Directory`, `..`, `.`; the candidate name is the href
without its trailing slash, falling back to the text likewise; pushed
name-only unless empty or an exact duplicate. -/
def dirEntryStep (plugins : List Plugin) (e : DirEntry) : List Plugin :=
  if (jsEndsWith e.href "/" || jsEndsWith e.text "/") &&
      !(jsIncludes e.href "..") &&
      !(e.text == "Parent Directory" || e.text == ".." || e.text == ".") then
    let pluginName := jsOrStr (stripTrailSlash e.href) (stripTrailSlash e.text)
    if pluginName ≠ "" && !(plugins.any (fun p => p.name == pluginName)) then
      plugins ++ [createPlugin pluginName none]
    else plugins
  else plugins

/-- `scanPluginDirectory(baseUrl)`: fetch the plugin-directory listing
(failure or non-2xx yields no candidates), collect candidates from the
anchors, then probe each candidate's `readme.txt` (failures silently keep
the candidate unchanged).  Returns the candidates and the fetch trace. -/
def scanPluginDirectory (net : Net) (baseUrl : String) :
    List Plugin × List String :=
  let u0 := baseUrl ++ "/wp-content/plugins/"
  match net u0 with
  | none => ([], [u0])
  | some r =>
    if respOk r then
      let found := r.dirEntries.foldl dirEntryStep []
      let readmeUrl := fun (p : Plugin) =>
        baseUrl ++ "/wp-content/plugins/" ++ p.name ++ "/readme.txt"
      let processed := found.map fun p =>
        match net (readmeUrl p) with
        | none => p
        | some rr => if respOk rr then applyReadme p rr.body else p
      (processed, u0 :: found.map readmeUrl)
    else ([], [u0])

/-! ## Premium fingerprints (`PREMIUM_PLUGIN_PATTERNS` /
`detectPremiumPlugins`, route lines 40–114) -/

/-- Double-quote character. -/
def dqChar : Char := Char.ofNat 34

/-- The fixed `PREMIUM_PLUGIN_PATTERNS` table: each entry's patterns in
source order. -/
def premiumPluginPatterns : List (String × List (String → Option String)) :=
  [("RevSlider",
    [litCap "revslider/public/assets/js/rs6.min.js?ver=" isDigitDot,
     litCap "revslider/public/assets/css/rs6.css?ver=" isDigitDot,
     lazyMidVer "/plugins/revslider/" "ver=",
     litCapClose "\"revSliderVersion\":\"" isDigitDot dqChar]),
   ("WPBakery Page Builder",
    [litCap "js_composer/assets/js/dist/js_composer_front.min.js?ver=" isDigitDot,
     litCap "js_composer/assets/css/js_composer.min.css?ver=" isDigitDot,
     litCapClose "\"vcVersion\":\"" isDigitDot dqChar]),
   ("Advanced Custom Fields Pro",
    [litCap "advanced-custom-fields-pro/assets/build/js/acf.min.js?ver=" isDigitDot,
     litCap "advanced-custom-fields-pro/assets/build/css/acf.min.css?ver=" isDigitDot]),
   ("Elementor Pro",
    [litCap "elementor-pro/assets/js/frontend.min.js?ver=" isDigitDot,
     litCap "elementor-pro/assets/css/frontend.min.css?ver=" isDigitDot])]

/-- First matching pattern of an ordered list (`break` on first match). -/
def firstPatternMatch (pats : List (String → Option String)) (s : String) :
    Option String :=
  pats.findSome? fun f => f s

/-- `detectPremiumPlugins($, html)`: first the raw HTML against each
entry (skipped on a case-insensitive name duplicate), then every inline
script body against each entry (skipped on an exact name duplicate). -/
def detectPremiumPlugins (html : String) (scriptBodies : List String) :
    List Plugin :=
  let fromHtml := premiumPluginPatterns.foldl (fun acc np =>
    if acc.any (fun p => jsToLower p.name == jsToLower np.1) then acc
    else
      match firstPatternMatch np.2 html with
      | some v => acc ++ [createPlugin np.1 (some v)]
      | none => acc) []
  scriptBodies.foldl (fun acc sc =>
    premiumPluginPatterns.foldl (fun acc2 np =>
      if acc2.any (fun p => p.name == np.1) then acc2
      else
        match firstPatternMatch np.2 sc with
        | some v => acc2 ++ [createPlugin np.1 (some v)]
        | none => acc2) acc) fromHtml

/-! ## `new URL(url)` — validity and origin

A model of the WHATWG URL constructor covering the shapes the route meets:
an ASCII scheme followed by `:`; for the special schemes an authority whose
host must be nonempty, free of blatantly forbidden characters, and whose
port (if any) must be numeric and at most 65535; any other scheme accepts
the remainder and has the opaque origin `"null"` (IPv6 hosts,
percent-encoding and IDN are outside the model's scope — the route's
callers only hand it plain http(s) URLs or non-URLs). -/

/-- Scheme characters after the leading letter. -/
def isSchemeChar (c : Char) : Bool :=
  c.isAlpha || c.isDigit || c = '+' || c = '-' || c = '.'

/-- The WHATWG special schemes with a required host. -/
def hostedSpecialSchemes : List String := ["http", "https", "ws", "wss", "ftp"]

/-- Default port of a special scheme. -/
def defaultPortOf (scheme : String) : Nat :=
  if scheme = "http" || scheme = "ws" then 80
  else if scheme = "https" || scheme = "wss" then 443
  else if scheme = "ftp" then 21
  else 0

/-- Drop a userinfo part: keep what follows the last `@`. -/
def afterLastAt (l : List Char) : List Char :=
  (l.reverse.takeWhile (· ≠ '@')).reverse

/-- Split `host[:port]` at the last colon. -/
def splitHostPort (l : List Char) : List Char × Option (List Char) :=
  let revPort := l.reverse.takeWhile (· ≠ ':')
  if revPort.length = l.length then (l, none)
  else (l.take (l.length - revPort.length - 1), some revPort.reverse)

/-- Characters that make a host invalid in this model. -/
def isBadHostChar (c : Char) : Bool :=
  c = ' ' || c = '<' || c = '>' || c = '|' || c = '^' || c = '{' || c = '}'

/-- The parsed result of `new URL`: the pieces the route uses. -/
structure JsURL where
  scheme : String
  origin : String
deriving DecidableEq

/-- `new URL(s)`: `none` when the constructor throws. -/
def parseURL (s : String) : Option JsURL :=
  let t := ((s.data.dropWhile fun c => c.toNat ≤ 32).reverse.dropWhile
    fun c => c.toNat ≤ 32).reverse
  match t with
  | [] => none
  | c0 :: _ =>
    if !c0.isAlpha then none
    else
      let schemeRun := t.takeWhile isSchemeChar
      match List.drop schemeRun.length t with
      | ':' :: rest =>
        let scheme : String := ⟨schemeRun.map lowerChar⟩
        if hostedSpecialSchemes.contains scheme then
          let afterSlashes := rest.dropWhile (· = '/')
          let authority := afterSlashes.takeWhile fun c =>
            c ≠ '/' && c ≠ '?' && c ≠ '#' && c ≠ '\\'
          let hp := splitHostPort (afterLastAt authority)
          let host := hp.1
          if host.isEmpty || host.any isBadHostChar then none
          else
            let hostStr : String := ⟨host.map lowerChar⟩
            match hp.2 with
            | none => some ⟨scheme, scheme ++ "://" ++ hostStr⟩
            | some [] => some ⟨scheme, scheme ++ "://" ++ hostStr⟩
            | some p =>
              if p.all Char.isDigit then
                let n := natOfDigits p
                if n ≤ 65535 then
                  if n = defaultPortOf scheme then
                    some ⟨scheme, scheme ++ "://" ++ hostStr⟩
                  else
                    some ⟨scheme, scheme ++ "://" ++ hostStr ++ ":" ++ toString n⟩
                else none
              else none
        else some ⟨scheme, "null"⟩
      | _ => none

/-- `new URL(u).origin`, for a `u` already known to parse. -/
def urlOrigin (u : String) : String :=
  match parseURL u with
  | some r => r.origin
  | none => "null"

example : parseURL "not a url" = none := by decide
example : (parseURL "https://example.com/page?x=1").map (·.origin) = some "https://example.com" := by decide
example : parseURL "http://" = none := by decide
example : (parseURL "mailto:x@y").isSome = true := by decide

/-! ## The scrape endpoint (`POST`, route lines 226–489) -/

/-- The deserialized request body: `invalid` = `req.json()` throws,
`noUrl` = a JSON object without a `url` field. -/
inductive ReqBody where
  | invalid
  | noUrl
  | url (u : String)
deriving DecidableEq

/-- The assembled report (route lines 464–477). -/
structure SiteReport where
  title : String
  metaDescription : Option String
  isWordPress : Bool
  wpVersion : String
  phpVersion : String
  apacheVersion : String
  plugins : List Plugin
  hasSecurityPlugin : Bool
  isWPUpToDate : Bool
  theme : Option Theme
deriving DecidableEq

/-- A response body: the report, an `{error}` object with the given
message, or the generic catch-all `{error, details}` object (whose
best-effort `details` text the model does not track). -/
inductive RespBody where
  | report (r : SiteReport)
  | err (msg : String)
  | serverError
deriving DecidableEq

/-- An HTTP response of the endpoint. -/
structure ScrapeResult where
  status : Nat
  body : RespBody
deriving DecidableEq

/-- The body of the scrape `POST` after a successful initial fetch (route
lines 254–477), as a function of the request URL, the initial response, the
network oracle and the parsed document.  Phases in source order: WordPress
version (meta generator, RSS `?v=`, `readme.html`); PHP version (meta
generator, `server`/`x-powered-by` headers, `phpinfo.php`); Apache version
(server header); plugin Methods 1–4; the security check; core currency; the
WordPress check; the registry pass; the directory scan merge; the premium
merge; theme detection; assembly. -/
def scrapeSuccess (u : String) (resp : HttpResp) (net : Net) (doc : Doc) :
    ScrapeResult × List String :=
          let origin := urlOrigin u
          let html := resp.body
          let title := jsTrim doc.title
          let metaDescription := doc.metaDescription.map jsTrim
          let metaGenerator := (doc.metaGenerators.head?).getD ""
          let wp1 := litWsCap "WordPress" 1 isDigitDot metaGenerator
          let wpStep :=
            match wp1 with
            | some v => (some v, ([] : List String))
            | none =>
              match litCap "?v=" isDigitDot ((doc.rssHref).getD "") with
              | some v => (some v, [])
              | none =>
                let ru := origin ++ "/readme.html"
                (match net ru with
                 | none => none
                 | some r =>
                   if respOk r then litWsCap "Version" 1 isDigitDot r.body
                   else none, [ru])
          let wpVersion := wpStep.1.getD "Unknown"
          let serverHeader := (resp.serverHdr).getD ""
          let xPoweredBy := (resp.xPoweredBy).getD ""
          let php1 :=
            match litWsCap "PHP" 1 isDigitDot metaGenerator with
            | some v => some v
            | none =>
              match litCap "PHP/" isDigitDot serverHeader with
              | some v => some v
              | none => litCap "PHP/" isDigitDot xPoweredBy
          let phpStep :=
            match php1 with
            | some v => (some v, ([] : List String))
            | none =>
              let pu := origin ++ "/phpinfo.php"
              (match net pu with
               | none => none
               | some r =>
                 if respOk r then litWsCap "PHP Version" 1 isDigitDot r.body
                 else none, [pu])
          let phpVersion := phpStep.1.getD "Unknown"
          let apacheVersion :=
            ((reCapCI "Apache/" none isDigitDot serverHeader).orElse fun _ =>
              reCapCI "Apache" (some 1) isDigitDot serverHeader).getD "Unknown"
          let plugins1 := doc.assetTags.foldl method1Step []
          let plugins2 := doc.pluginComments.foldl method2Step plugins1
          let plugins3 := doc.generatorTags.foldl method3Step plugins2
          let ju := origin ++ "/wp-json/"
          let plugins4 :=
            match net ju with
            | none => plugins3
            | some r =>
              if respOk r then
                match r.jsonNamespaces with
                | some nss => nss.foldl method4Step plugins3
                | none => plugins3
              else plugins3
          let hasSecurity := hasSecurityPluginCheck plugins4
          let isWPUp := isWPUpToDateOf wpVersion
          let isWordPress :=
            doc.hasApiWOrgLink ||
              doc.metaGenerators.any (fun g => jsIncludes g "WordPress") ||
              jsIncludes html "/wp-content/" ||
              jsIncludes html "/wp-includes/" ||
              wpVersion ≠ "Unknown"
          let regResults := plugins4.map (registryUpdate net)
          let plugins5 := regResults.map (·.1)
          let trReg := regResults.foldl (fun a r => a ++ r.2) ([] : List String)
          let dirStep := scanPluginDirectory net origin
          let plugins6 := dirStep.1.foldl mergeByNameStep plugins5
          let premium := detectPremiumPlugins html doc.scriptBodies
          let plugins7 := premium.foldl mergeByNameStep plugins6
          let theme := detectTheme
            (doc.assetTags.filterMap fun t =>
              if t.isStylesheet then some t.url else none)
            doc.metaTemplate doc.metaGenerators.head?
          (⟨200, .report
            { title := title
              metaDescription := metaDescription
              isWordPress := isWordPress
              wpVersion := wpVersion
              phpVersion := phpVersion
              apacheVersion := apacheVersion
              plugins := plugins7
              hasSecurityPlugin := hasSecurity
              isWPUpToDate := isWPUp
              theme := theme }⟩,
           [u] ++ wpStep.2 ++ phpStep.2 ++ [ju] ++ trReg ++ dirStep.2)

/-- The `POST` handler of src/app/api/scrape/route.ts as a function of the
request body, the network oracle and the HTML parse, returning the response
together with the URLs fetched, in program order: the two 400 validations
(no fetch performed); the initial fetch — a thrown fetch reaches the outer
catch and becomes a 500, a non-2xx response returns immediately with the
upstream status and an error message — and then `scrapeSuccess`. -/
def scrapePOST (req : ReqBody) (net : Net) (parse : String → Doc) :
    ScrapeResult × List String :=
  match req with
  | .invalid => (⟨500, .serverError⟩, [])
  | .noUrl => (⟨400, .err "URL-osoite vaaditaan"⟩, [])
  | .url u =>
    if u = "" then (⟨400, .err "URL-osoite vaaditaan"⟩, [])
    else if (parseURL u).isNone then (⟨400, .err "Virheellinen URL-muoto"⟩, [])
    else
      match net u with
      | none => (⟨500, .serverError⟩, [u])
      | some resp =>
        if !respOk resp then
          (⟨resp.status,
            .err ("Sivuston hakeminen epäonnistui: " ++ toString resp.status
                    ++ " " ++ resp.statusText)⟩, [u])
        else scrapeSuccess u resp net (parse resp.body)

/-- The plugin list of a response (empty for error responses). -/
def reportPlugins (res : ScrapeResult) : List Plugin :=
  match res.body with
  | .report r => r.plugins
  | _ => []

/-! ## The analysis endpoint (`retryWithBackoff` + `POST` of the analyze
route variant) -/

/-- The retry loop of `retryWithBackoff(fn, maxRetries = 3)`, from loop
index `i`.  `attempt k` is the outcome of the `k`-th call of `fn` (`.ok` =
the promise resolves, `.error` = it rejects).  Returns the function's
result (`none` models the `undefined` a zero-iteration loop would return)
together with the list of `setTimeout` delays slept, in order — the source
waits `Math.pow(2, i) * 1000` ms after every failed non-final attempt. -/
def retryLoop (attempt : Nat → Except String String) (maxRetries i : Nat) :
    Option (Except String String) × List Nat :=
  if _h : i < maxRetries then
    match attempt i with
    | .ok a => (some (.ok a), [])
    | .error e =>
      if i = maxRetries - 1 then (some (.error e), [])
      else
        let r := retryLoop attempt maxRetries (i + 1)
        (r.1, (2 ^ i * 1000) :: r.2)
  else (none, [])
termination_by maxRetries - i

/-- `retryWithBackoff(fn, maxRetries)`. -/
def retryWithBackoff (attempt : Nat → Except String String)
    (maxRetries : Nat) : Option (Except String String) × List Nat :=
  retryLoop attempt maxRetries 0

/-- The analyze endpoint's response: `{analysis}` with status 200, or the
catch-all `{error, details}` with status 500. -/
inductive AnalyzeResp where
  | analysis (text : String)
  | failure
deriving DecidableEq

/-- Status code of an analyze response. -/
def AnalyzeResp.status : AnalyzeResp → Nat
  | .analysis _ => 200
  | .failure => 500

/-- The `POST` handler of the analyze route (the variant with
`retryWithBackoff`): the completion call is wrapped in
`retryWithBackoff(…, 3)`; a final rejection reaches the outer catch and
becomes a 500.  The prompt construction is not observable here, so the
handler is modelled as a function of the per-attempt outcomes; the second
component is the list of backoff delays slept. -/
def analyzePOST (attempt : Nat → Except String String) :
    AnalyzeResp × List Nat :=
  let r := retryWithBackoff attempt 3
  match r.1 with
  | some (.ok a) => (.analysis a, r.2)
  | some (.error _) => (.failure, r.2)
  | none => (.failure, r.2)

/-! ## Properties of `normalizePluginSlug` -/

/-- No two adjacent hyphens. -/
def noDoubleHyphen : List Char → Bool
  | [] => true
  | [_] => true
  | c :: d :: rest => !(c = '-' && d = '-') && noDoubleHyphen (d :: rest)

theorem isSlugChar_replChar (c : Char) : isSlugChar (replChar c) = true := by
  unfold replChar
  split
  · assumption
  · decide

theorem lowerChar_fixed {c : Char} (h : isSlugChar c = true) : lowerChar c = c := by
  unfold isSlugChar isLowerAlnum at h
  simp only [Bool.or_eq_true, Bool.and_eq_true, decide_eq_true_eq] at h
  unfold lowerChar
  cases hb : (65 ≤ c.toNat && c.toNat ≤ 90) with
  | false => simp
  | true =>
    exfalso
    simp only [Bool.and_eq_true, decide_eq_true_eq] at hb
    rcases h with (⟨h1, h2⟩ | ⟨h1, h2⟩) | h
    · omega
    · omega
    · subst h
      exact absurd hb (by decide)

theorem replChar_fixed {c : Char} (h : isSlugChar c = true) : replChar c = c := by
  unfold replChar
  rw [h]
  simp

theorem noDoubleHyphen_tail {c : Char} {l : List Char}
    (h : noDoubleHyphen (c :: l) = true) : noDoubleHyphen l = true := by
  cases l with
  | nil => rfl
  | cons d rest =>
    unfold noDoubleHyphen at h
    simp only [Bool.and_eq_true] at h
    exact h.2

theorem noDoubleHyphen_cons {c : Char} {l : List Char}
    (h1 : noDoubleHyphen l = true)
    (h2 : ∀ d t, l = d :: t → (c = '-' && d = '-') = false) :
    noDoubleHyphen (c :: l) = true := by
  cases l with
  | nil => rfl
  | cons d rest =>
    unfold noDoubleHyphen
    rw [h2 d rest rfl]
    simpa using h1

theorem collapseHyphens_head (l : List Char) :
    (collapseHyphens l).head? = l.head? := by
  induction l using collapseHyphens.induct with
  | case1 => rfl
  | case2 c => rfl
  | case3 c d rest h ih =>
    unfold collapseHyphens
    rw [if_pos h]
    rw [ih]
    simp only [Bool.and_eq_true, decide_eq_true_eq] at h
    simp [h.1, h.2]
  | case4 c d rest h ih =>
    unfold collapseHyphens
    rw [if_neg h]
    rfl

theorem collapseHyphens_mem {P : Char → Prop} {l : List Char}
    (h : ∀ c ∈ l, P c) : ∀ c ∈ collapseHyphens l, P c := by
  induction l using collapseHyphens.induct with
  | case1 =>
    intro x hx
    simp [collapseHyphens] at hx
  | case2 c =>
    intro x hx
    simp only [collapseHyphens, List.mem_singleton] at hx
    exact hx ▸ h c (List.mem_cons_self c _)
  | case3 c d rest hcd ih =>
    unfold collapseHyphens
    rw [if_pos hcd]
    exact ih fun x hx => h x (List.mem_cons_of_mem c hx)
  | case4 c d rest hcd ih =>
    unfold collapseHyphens
    rw [if_neg hcd]
    intro x hx
    rcases List.mem_cons.mp hx with hx | hx
    · exact hx ▸ h c (List.mem_cons_self c _)
    · exact ih (fun y hy => h y (List.mem_cons_of_mem c hy)) x hx

theorem collapseHyphens_noDD (l : List Char) :
    noDoubleHyphen (collapseHyphens l) = true := by
  induction l using collapseHyphens.induct with
  | case1 => rfl
  | case2 c => rfl
  | case3 c d rest hcd ih =>
    unfold collapseHyphens
    rw [if_pos hcd]
    exact ih
  | case4 c d rest hcd ih =>
    unfold collapseHyphens
    rw [if_neg hcd]
    refine noDoubleHyphen_cons ih fun e t het => ?_
    have hd : (collapseHyphens (d :: rest)).head? = some d := collapseHyphens_head _
    rw [het] at hd
    simp only [List.head?_cons, Option.some.injEq] at hd
    subst hd
    simpa using hcd

theorem collapseHyphens_fixed {l : List Char}
    (h : noDoubleHyphen l = true) : collapseHyphens l = l := by
  induction l using collapseHyphens.induct with
  | case1 => rfl
  | case2 c => rfl
  | case3 c d rest hcd ih =>
    unfold noDoubleHyphen at h
    rw [Bool.and_eq_true] at h
    rw [hcd] at h
    simp at h
  | case4 c d rest hcd ih =>
    unfold collapseHyphens
    rw [if_neg hcd]
    rw [ih (noDoubleHyphen_tail h)]

theorem dropLeadHyphen_mem {P : Char → Prop} {l : List Char}
    (h : ∀ c ∈ l, P c) : ∀ c ∈ dropLeadHyphen l, P c := by
  cases l with
  | nil => simpa [dropLeadHyphen] using h
  | cons c rest =>
    by_cases hc : c = '-'
    · simp only [dropLeadHyphen, if_pos hc]
      exact fun x hx => h x (List.mem_cons_of_mem c hx)
    · simp only [dropLeadHyphen, if_neg hc]
      exact h

theorem dropLeadHyphen_noDD {l : List Char}
    (h : noDoubleHyphen l = true) : noDoubleHyphen (dropLeadHyphen l) = true := by
  cases l with
  | nil => rfl
  | cons c rest =>
    by_cases hc : c = '-'
    · simp only [dropLeadHyphen, if_pos hc]
      exact noDoubleHyphen_tail h
    · simp only [dropLeadHyphen, if_neg hc]
      exact h

theorem dropLeadHyphen_headNot {l : List Char}
    (h : noDoubleHyphen l = true) :
    ∀ c, (dropLeadHyphen l).head? = some c → c ≠ '-' := by
  cases l with
  | nil => intro c hc; cases hc
  | cons c rest =>
    by_cases hc : c = '-'
    · simp only [dropLeadHyphen, if_pos hc]
      cases rest with
      | nil => intro x hx; cases hx
      | cons d r2 =>
        intro x hx
        simp only [List.head?_cons, Option.some.injEq] at hx
        subst hx
        unfold noDoubleHyphen at h
        simp only [Bool.and_eq_true, Bool.not_eq_true', Bool.and_eq_false_iff,
          decide_eq_false_iff_not] at h
        rcases h.1 with h1 | h1
        · exact absurd hc h1
        · exact h1
    · simp only [dropLeadHyphen, if_neg hc]
      intro x hx
      simp only [List.head?_cons, Option.some.injEq] at hx
      subst hx
      exact hc

theorem dropTrailHyphen_mem {P : Char → Prop} {l : List Char}
    (h : ∀ c ∈ l, P c) : ∀ c ∈ dropTrailHyphen l, P c := by
  induction l using dropTrailHyphen.induct with
  | case1 => simpa [dropTrailHyphen] using h
  | case2 =>
    intro x hx
    simp [dropTrailHyphen] at hx
  | case3 c hc =>
    simp only [dropTrailHyphen, if_neg hc]
    exact h
  | case4 c d rest ih =>
    simp only [dropTrailHyphen]
    intro x hx
    rcases List.mem_cons.mp hx with hx | hx
    · exact hx ▸ h c (List.mem_cons_self c _)
    · exact ih (fun y hy => h y (List.mem_cons_of_mem c hy)) x hx

theorem dropTrailHyphen_head (l : List Char) :
    (dropTrailHyphen l).head? = l.head? ∨ dropTrailHyphen l = [] := by
  induction l using dropTrailHyphen.induct with
  | case1 => exact .inr rfl
  | case2 => exact .inr rfl
  | case3 c hc => simp [dropTrailHyphen, hc]
  | case4 c d rest ih =>
    simp only [dropTrailHyphen]
    exact .inl rfl

theorem dropTrailHyphen_eq_nil {l : List Char}
    (h : dropTrailHyphen l = []) : l = [] ∨ l = ['-'] := by
  induction l using dropTrailHyphen.induct with
  | case1 => exact .inl rfl
  | case2 => exact .inr rfl
  | case3 c hc =>
    simp only [dropTrailHyphen, if_neg hc] at h
    cases h
  | case4 c d rest ih =>
    simp only [dropTrailHyphen] at h
    cases h

theorem dropTrailHyphen_noDD {l : List Char}
    (h : noDoubleHyphen l = true) : noDoubleHyphen (dropTrailHyphen l) = true := by
  induction l using dropTrailHyphen.induct with
  | case1 => rfl
  | case2 => rfl
  | case3 c hc => simp [dropTrailHyphen, if_neg hc, noDoubleHyphen]
  | case4 c d rest ih =>
    simp only [dropTrailHyphen]
    have hdd : noDoubleHyphen (d :: rest) = true := noDoubleHyphen_tail h
    refine noDoubleHyphen_cons (ih hdd) fun e t het => ?_
    rcases dropTrailHyphen_head (d :: rest) with hh | hh
    · rw [het] at hh
      simp only [List.head?_cons, Option.some.injEq] at hh
      subst hh
      unfold noDoubleHyphen at h
      simp only [Bool.and_eq_true, Bool.not_eq_true'] at h
      exact h.1
    · rw [het] at hh; cases hh

theorem dropTrailHyphen_lastNot {l : List Char}
    (h : noDoubleHyphen l = true) :
    ∀ c, (dropTrailHyphen l).getLast? = some c → c ≠ '-' := by
  induction l using dropTrailHyphen.induct with
  | case1 => intro c hc; cases hc
  | case2 => intro c hc; cases hc
  | case3 c hc =>
    simp only [dropTrailHyphen, if_neg hc]
    intro x hx
    simp only [List.getLast?_singleton, Option.some.injEq] at hx
    exact hx ▸ hc
  | case4 c d rest ih =>
    simp only [dropTrailHyphen]
    intro x hx
    cases htail : dropTrailHyphen (d :: rest) with
    | nil =>
      rw [htail] at hx
      simp only [List.getLast?_singleton, Option.some.injEq] at hx
      subst hx
      rcases dropTrailHyphen_eq_nil htail with h0 | h0
      · cases h0
      · have hd : d = '-' := by
          have := congrArg List.head? h0
          simpa using this
        unfold noDoubleHyphen at h
        simp only [Bool.and_eq_true, Bool.not_eq_true', Bool.and_eq_false_iff,
          decide_eq_false_iff_not] at h
        rcases h.1 with h1 | h1
        · exact h1
        · exact absurd hd h1
    | cons e t =>
      rw [htail] at hx
      rw [List.getLast?_cons_cons] at hx
      have := ih (noDoubleHyphen_tail h) x
      rw [htail] at this
      exact this hx

theorem dropTrailHyphen_fixed {l : List Char}
    (h : ∀ c, l.getLast? = some c → c ≠ '-') : dropTrailHyphen l = l := by
  induction l using dropTrailHyphen.induct with
  | case1 => rfl
  | case2 => exact absurd rfl (h '-' (by simp))
  | case3 c hc => simp [dropTrailHyphen, if_neg hc]
  | case4 c d rest ih =>
    simp only [dropTrailHyphen, List.cons.injEq, true_and]
    refine ih fun x hx => h x ?_
    rw [List.getLast?_cons_cons]
    exact hx

theorem dropLeadHyphen_fixed {l : List Char}
    (h : ∀ c, l.head? = some c → c ≠ '-') : dropLeadHyphen l = l := by
  cases l with
  | nil => rfl
  | cons c rest =>
    have hc : c ≠ '-' := h c rfl
    simp [dropLeadHyphen, if_neg hc]

theorem dropTrailHyphen_headNot {l : List Char}
    (h : ∀ c, l.head? = some c → c ≠ '-') :
    ∀ c, (dropTrailHyphen l).head? = some c → c ≠ '-' := by
  intro c hc
  rcases dropTrailHyphen_head l with hh | hh
  · exact h c (hh ▸ hc)
  · rw [hh] at hc; cases hc

theorem isLowerAlnum_of_slug {c : Char} (hs : isSlugChar c = true)
    (hne : c ≠ '-') : isLowerAlnum c = true := by
  unfold isSlugChar at hs
  simp only [Bool.or_eq_true, decide_eq_true_eq] at hs
  rcases hs with h | h
  · exact h
  · exact absurd h hne

theorem slugPatAux_of : ∀ l : List Char, (∀ c ∈ l, isSlugChar c = true) →
    noDoubleHyphen l = true → (∀ c, l.getLast? = some c → c ≠ '-') →
    slugPatAux l = true := by
  intro l
  induction l using slugPatAux.induct with
  | case1 => intro _ _ _; rfl
  | case2 =>
    intro _ _ hlast
    exact absurd rfl (hlast '-' (by simp))
  | case3 d r2 ih =>
    intro hall hdd hlast
    have hd_ne : d ≠ '-' := by
      unfold noDoubleHyphen at hdd
      simp only [Bool.and_eq_true, Bool.not_eq_true', Bool.and_eq_false_iff,
        decide_eq_false_iff_not] at hdd
      rcases hdd.1 with h1 | h1
      · exact absurd trivial h1
      · exact h1
    have hd_al : isLowerAlnum d = true :=
      isLowerAlnum_of_slug (hall d (by simp)) hd_ne
    have haux : slugPatAux r2 = true := by
      apply ih
      · intro c hc
        exact hall c (by simp [hc])
      · exact noDoubleHyphen_tail (noDoubleHyphen_tail hdd)
      · intro c hc
        apply hlast c
        cases r2 with
        | nil => cases hc
        | cons e t =>
          rw [List.getLast?_cons_cons, List.getLast?_cons_cons]
          exact hc
    show slugPatAux ('-' :: d :: r2) = true
    unfold slugPatAux
    rw [if_pos rfl]
    simp [hd_al, haux]
  | case4 d r2 hne ih =>
    intro hall hdd hlast
    have hd_al : isLowerAlnum d = true :=
      isLowerAlnum_of_slug (hall d (by simp)) hne
    have haux : slugPatAux r2 = true := by
      apply ih
      · intro c hc
        exact hall c (by simp [hc])
      · exact noDoubleHyphen_tail hdd
      · intro c hc
        apply hlast c
        cases r2 with
        | nil => cases hc
        | cons e t =>
          rw [List.getLast?_cons_cons]
          exact hc
    unfold slugPatAux
    rw [if_neg hne]
    simp [hd_al, haux]

theorem map_id_of_mem {l : List Char} {f : Char → Char}
    (h : ∀ c ∈ l, f c = c) : l.map f = l := by
  induction l with
  | nil => rfl
  | cons c rest ih =>
    simp only [List.map_cons, List.cons.injEq]
    exact ⟨h c (by simp), ih fun x hx => h x (by simp [hx])⟩

/-- C8.  `normalizePluginSlug` is idempotent, and its result is empty or
matches `^[a-z0-9]+(-[a-z0-9]+)*$`. -/
theorem c8_normalizePluginSlug_idempotent_and_shape (s : String) :
    normalizePluginSlug (normalizePluginSlug s) = normalizePluginSlug s ∧
      (normalizePluginSlug s = "" ∨ slugPat (normalizePluginSlug s) = true) := by
  set r : List Char := dropTrailHyphen (dropLeadHyphen (collapseHyphens
    ((s.data.map lowerChar).map replChar))) with hr
  have hnorm : normalizePluginSlug s = String.mk r := rfl
  have hall : ∀ c ∈ r, isSlugChar c = true := by
    rw [hr]
    apply dropTrailHyphen_mem
    apply dropLeadHyphen_mem
    apply collapseHyphens_mem
    intro c hc
    rcases List.mem_map.mp hc with ⟨a, _, ha⟩
    exact ha ▸ isSlugChar_replChar a
  have hdd0 : noDoubleHyphen (collapseHyphens
      ((s.data.map lowerChar).map replChar)) = true := collapseHyphens_noDD _
  have hdd1 := dropLeadHyphen_noDD hdd0
  have hdd : noDoubleHyphen r = true := dropTrailHyphen_noDD hdd1
  have hhead : ∀ c, r.head? = some c → c ≠ '-' :=
    dropTrailHyphen_headNot (dropLeadHyphen_headNot hdd0)
  have hlast : ∀ c, r.getLast? = some c → c ≠ '-' := dropTrailHyphen_lastNot hdd1
  constructor
  · rw [hnorm]
    show String.mk (dropTrailHyphen (dropLeadHyphen (collapseHyphens
      ((r.map lowerChar).map replChar)))) = String.mk r
    rw [map_id_of_mem fun c hc => lowerChar_fixed (hall c hc),
        map_id_of_mem fun c hc => replChar_fixed (hall c hc),
        collapseHyphens_fixed hdd, dropLeadHyphen_fixed hhead,
        dropTrailHyphen_fixed hlast]
  · rw [hnorm]
    cases hre : r with
    | nil => exact .inl rfl
    | cons c rest =>
      right
      rw [hre] at hall hdd hhead hlast
      show (isLowerAlnum c && slugPatAux rest) = true
      have hc_ne : c ≠ '-' := hhead c rfl
      have hc_al : isLowerAlnum c = true :=
        isLowerAlnum_of_slug (hall c (List.mem_cons_self c rest)) hc_ne
      have haux : slugPatAux rest = true := by
        apply slugPatAux_of
        · intro x hx
          exact hall x (List.mem_cons_of_mem c hx)
        · exact noDoubleHyphen_tail hdd
        · intro x hx
          apply hlast x
          cases rest with
          | nil => cases hx
          | cons e t =>
            rw [List.getLast?_cons_cons]
            exact hx
      simp [hc_al, haux]

/-! ## Claims about currency checks (C5, C3) -/

/-- C5.  Core currency is the semver comparison of the detected version
against the fixed baseline `"6.4.3"`, and is `false` whenever the detected
version is the `"Unknown"` sentinel or not a valid semantic version —
asymmetric with the plugin policy, which yields `undefined` (`none`) when
the installed version is invalid. -/
theorem c5_core_currency_baseline (w : String) :
    latestWPVersion = "6.4.3" ∧
    (w ≠ "Unknown" → semverValid w = true →
      isWPUpToDateOf w = semverGte w latestWPVersion) ∧
    (w = "Unknown" ∨ semverValid w = false → isWPUpToDateOf w = false) ∧
    (semverValid w = false → computeIsUpToDate w latestWPVersion = none) := by
  refine ⟨rfl, ?_, ?_, ?_⟩
  · intro h1 h2
    simp [isWPUpToDateOf, h1, h2]
  · intro h
    rcases h with h | h
    · subst h
      rfl
    · simp [isWPUpToDateOf, h]
  · intro h
    simp [computeIsUpToDate, h]

/-- C5 witness: the baseline comparison at `"6.2"` (invalid as a semver,
hence not current) and at `"6.5.1"` (valid, compared against the
baseline). -/
theorem c5_core_currency_baseline_witness :
    isWPUpToDateOf "6.2" = false ∧
      isWPUpToDateOf "6.5.1" = semverGte "6.5.1" latestWPVersion ∧
      computeIsUpToDate "6.2" latestWPVersion = none :=
  ⟨(c5_core_currency_baseline "6.2").2.2.1 (Or.inr (by decide)),
   (c5_core_currency_baseline "6.5.1").2.1 (by decide) (by decide),
   (c5_core_currency_baseline "6.2").2.2.2 (by decide)⟩

/-- C3 counterexample: the claim's example `"1.0"` vs `"2.0"` does not
yield the boolean "not current" — `"1.0"` fails `semver.valid`, so the
route's `isUpToDate` is `undefined` (`none`), not `false`. -/
theorem c3_counterexample :
    semverValid "1.0" = false ∧
      computeIsUpToDate "1.0" "2.0" = none ∧
      computeIsUpToDate "1.0" "2.0" ≠ some false := by
  refine ⟨by decide, by decide, by decide⟩

/-- C3 (amended).  For a plugin with a successful registry lookup the
record's `isUpToDate` is the three-valued comparison: `none` (undefined)
whenever either string fails semver validation — including the claim's
`"1.0"` vs `"2.0"`, since `"1.0"` is not a full semantic version — and
`some (installed ≥ latest)` when both validate (`"1.2.3"` vs `"1.2.3"` →
current, `"1.0.0"` vs `"2.0.0"` → not current); the total function never
throws. -/
theorem c3_isUpToDate_three_valued (a b : String) (p : Plugin) (net : Net) :
    ((semverValid a = false ∨ semverValid b = false) →
      computeIsUpToDate a b = none) ∧
    (semverValid a = true → semverValid b = true →
      computeIsUpToDate a b = some (semverGte a b)) ∧
    computeIsUpToDate "1.2.3" "1.2.3" = some true ∧
    computeIsUpToDate "1.0.0" "2.0.0" = some false ∧
    computeIsUpToDate "1.0" "2.0" = none ∧
    (∀ L, (getLatestPluginVersion net (normalizePluginSlug p.name)).1 = some L →
      (registryUpdate net p).1.isUpToDate = computeIsUpToDate p.version L ∧
        (registryUpdate net p).1.latestVersion = some L) := by
  refine ⟨?_, ?_, by decide, by decide, by decide, ?_⟩
  · intro h
    rcases h with h | h
    · simp [computeIsUpToDate, h]
    · simp [computeIsUpToDate, h]
  · intro h1 h2
    simp [computeIsUpToDate, h1, h2]
  · intro L hL
    simp [registryUpdate, hL]

/-- C3 witness: a registry lookup returning `"2.0.0"` for an installed
`"1.0.0"` records `latestVersion` and the boolean comparison. -/
theorem c3_isUpToDate_three_valued_witness :
    (registryUpdate
        (fun _ => some { status := 200, statusText := "OK", jsonVersion := some "2.0.0" })
        (createPlugin "akismet" (some "1.0.0"))).1.isUpToDate =
      computeIsUpToDate "1.0.0" "2.0.0" ∧
    computeIsUpToDate "1.0" "2.0" = none := by
  refine ⟨((c3_isUpToDate_three_valued "1.0" "2.0"
      (createPlugin "akismet" (some "1.0.0"))
      (fun _ => some { status := 200, statusText := "OK", jsonVersion := some "2.0.0" })).2.2.2.2.2
      "2.0.0" (by decide)).1,
    (c3_isUpToDate_three_valued "1.0" "2.0"
      (createPlugin "akismet" (some "1.0.0"))
      (fun _ => some { status := 200, statusText := "OK", jsonVersion := some "2.0.0" })).2.2.2.2.1⟩

/-! ## Claims about request handling (C7, C6) -/

/-- C7.  A request without a `url` (including the falsy empty string) and a
request whose `url` does not parse as a URL are both rejected with 400 and
an error message, with an empty fetch trace — no outbound call happens
before the rejection. -/
theorem c7_invalid_url_400 (net : Net) (parse : String → Doc) (u : String) :
    scrapePOST .noUrl net parse = (⟨400, .err "URL-osoite vaaditaan"⟩, []) ∧
    (u = "" → scrapePOST (.url u) net parse =
      (⟨400, .err "URL-osoite vaaditaan"⟩, [])) ∧
    (u ≠ "" → parseURL u = none → scrapePOST (.url u) net parse =
      (⟨400, .err "Virheellinen URL-muoto"⟩, [])) := by
  refine ⟨rfl, ?_, ?_⟩
  · intro h
    simp [scrapePOST, h]
  · intro h1 h2
    simp [scrapePOST, h1, h2]

/-- C7 witness: the malformed input `"not a url"` from the spec's
end-to-end scenario. -/
theorem c7_invalid_url_400_witness :
    scrapePOST (.url "not a url") (fun _ => none) (fun _ => {}) =
      (⟨400, .err "Virheellinen URL-muoto"⟩, []) :=
  (c7_invalid_url_400 (fun _ => none) (fun _ => {}) "not a url").2.2
    (by decide) (by decide)

/-- C6.  When the initial target fetch resolves with a non-2xx status the
request aborts: the response carries the upstream status code and an error
message, and the fetch trace is exactly the initial URL — no secondary
probe (readme, phpinfo, wp-json, registry, plugin directory) happens. -/
theorem c6_upstream_failure_aborts (u : String) (net : Net)
    (parse : String → Doc) (r : HttpResp) (hu : u ≠ "")
    (hvalid : (parseURL u).isSome = true) (hnet : net u = some r)
    (hnotok : respOk r = false) :
    scrapePOST (.url u) net parse =
      (⟨r.status, .err ("Sivuston hakeminen epäonnistui: "
          ++ toString r.status ++ " " ++ r.statusText)⟩, [u]) := by
  have hvn : (parseURL u).isNone = false := by
    rcases Option.isSome_iff_exists.mp hvalid with ⟨x, hx⟩
    simp [hx]
  simp [scrapePOST, hu, hvn, hnet, hnotok]

/-- C6 witness: a 404 from the target propagates as a 404 with the route's
error message, after exactly one fetch. -/
theorem c6_upstream_failure_aborts_witness :
    scrapePOST (.url "https://example.com")
        (fun v => if v = "https://example.com" then
          some { status := 404, statusText := "Not Found" } else none)
        (fun _ => {}) =
      (⟨404, .err "Sivuston hakeminen epäonnistui: 404 Not Found"⟩,
        ["https://example.com"]) :=
  c6_upstream_failure_aborts "https://example.com" _ _
    { status := 404, statusText := "Not Found" }
    (by decide) (by decide) (by simp) (by decide)

/-! ## The analyze endpoint's retry behaviour (C9) -/

theorem retryLoop_at_ok (attempt : Nat → Except String String) (m i : Nat)
    (a : String) (hi : i < m) (h : attempt i = .ok a) :
    retryLoop attempt m i = (some (.ok a), []) := by
  unfold retryLoop
  rw [dif_pos hi, h]

theorem retryLoop_at_final_err (attempt : Nat → Except String String)
    (m i : Nat) (e : String) (hi : i < m) (hie : i = m - 1)
    (h : attempt i = .error e) :
    retryLoop attempt m i = (some (.error e), []) := by
  unfold retryLoop
  rw [dif_pos hi, h]
  simp [hie]

theorem retryLoop_at_err (attempt : Nat → Except String String) (m i : Nat)
    (e : String) (hi : i < m) (hie : i ≠ m - 1) (h : attempt i = .error e) :
    retryLoop attempt m i =
      ((retryLoop attempt m (i + 1)).1,
        (2 ^ i * 1000) :: (retryLoop attempt m (i + 1)).2) := by
  conv_lhs => unfold retryLoop
  rw [dif_pos hi, h]
  simp [hie]

/-- C9.  The analyze endpoint retries the completion call with exponential
backoff: when the first `k` attempts fail transiently and attempt `k`
(`k < 3`) succeeds with text `a`, the endpoint returns the analysis (status
200) after sleeping `2^i · 1000` ms after failed attempt `i` — delays
doubling from the 1-second base; only when all 3 attempts of the budget
fail does it return a 500. -/
theorem c9_analyze_retry_backoff (attempt : Nat → Except String String) :
    (∀ k a, k < 3 → (∀ i, i < k → ∃ e, attempt i = .error e) →
      attempt k = .ok a →
      analyzePOST attempt =
        (.analysis a, (List.range k).map fun i => 2 ^ i * 1000)) ∧
    ((∀ i, i < 3 → ∃ e, attempt i = .error e) →
      (analyzePOST attempt).1 = .failure ∧
        (analyzePOST attempt).1.status = 500) := by
  constructor
  · intro k a hk hfail hok
    match k with
    | 0 =>
      unfold analyzePOST retryWithBackoff
      rw [retryLoop_at_ok attempt 3 0 a (by omega) hok]
      rfl
    | 1 =>
      obtain ⟨e0, he0⟩ := hfail 0 (by omega)
      unfold analyzePOST retryWithBackoff
      rw [retryLoop_at_err attempt 3 0 e0 (by omega) (by omega) he0,
        retryLoop_at_ok attempt 3 1 a (by omega) hok]
      rfl
    | 2 =>
      obtain ⟨e0, he0⟩ := hfail 0 (by omega)
      obtain ⟨e1, he1⟩ := hfail 1 (by omega)
      unfold analyzePOST retryWithBackoff
      rw [retryLoop_at_err attempt 3 0 e0 (by omega) (by omega) he0,
        retryLoop_at_err attempt 3 1 e1 (by omega) (by omega) he1,
        retryLoop_at_ok attempt 3 2 a (by omega) hok]
      rfl
    | k + 3 => omega
  · intro hfail
    obtain ⟨e0, he0⟩ := hfail 0 (by omega)
    obtain ⟨e1, he1⟩ := hfail 1 (by omega)
    obtain ⟨e2, he2⟩ := hfail 2 (by omega)
    unfold analyzePOST retryWithBackoff
    rw [retryLoop_at_err attempt 3 0 e0 (by omega) (by omega) he0,
      retryLoop_at_err attempt 3 1 e1 (by omega) (by omega) he1,
      retryLoop_at_final_err attempt 3 2 e2 (by omega) rfl he2]
    exact ⟨rfl, rfl⟩

/-- C9 witness: with the first attempt failing and the second succeeding,
the endpoint answers 200 with the analysis after one 1000 ms backoff; with
every attempt failing it answers 500. -/
theorem c9_analyze_retry_backoff_witness :
    analyzePOST (fun i => if i = 0 then .error "boom" else .ok "done") =
      (.analysis "done", [1000]) ∧
    (analyzePOST (fun _ => .error "boom")).1.status = 500 :=
  ⟨(c9_analyze_retry_backoff (fun i => if i = 0 then .error "boom" else .ok "done")).1
      1 "done" (by omega)
      (fun i hi => ⟨"boom", by interval_cases i <;> rfl⟩) rfl,
    ((c9_analyze_retry_backoff (fun _ => .error "boom")).2
      (fun i _ => ⟨"boom", rfl⟩)).2⟩

/-! ## Theme resolution order (C4) -/

/-- The theme candidate a single stylesheet link yields in Method 1 of
`detectTheme`. -/
def themeCandidateOf (href : String) : Option Theme :=
  (themeContentMatch href).map fun name =>
    { name := name, version := litCap "?ver=" isDigitDot href, isChild := false }

/-- The accumulator step "keep the new match if any, else the old value". -/
def lastMatchStep {α β : Type} (f : α → Option β) (acc : Option β) (x : α) :
    Option β :=
  match f x with
  | some b => some b
  | none => acc

theorem foldl_lastMatch {α β : Type} (f : α → Option β) :
    ∀ (l : List α) (init : Option β),
      l.foldl (lastMatchStep f) init =
        ((l.filterMap f).getLast?).elim init some := by
  intro l
  induction l with
  | nil => intro init; rfl
  | cons x rest ih =>
    intro init
    rw [List.foldl_cons]
    cases hf : f x with
    | none =>
      rw [ih]
      simp [lastMatchStep, List.filterMap_cons, hf]
    | some b =>
      rw [ih]
      simp only [lastMatchStep, hf, List.filterMap_cons]
      cases hfm : rest.filterMap f with
      | nil => simp
      | cons e t2 =>
        rw [List.getLast?_cons_cons]
        have hs : ((e :: t2).getLast?).isSome = true := by
          rw [List.getLast?_isSome]
          simp
        rcases Option.isSome_iff_exists.mp hs with ⟨c, hc⟩
        rw [hc]
        rfl

/-- C4 counterexample: with stylesheet links for theme `alpha` then theme
`beta`, the route resolves the theme named by the LAST link (`beta`), with
the first (`alpha`) relegated to `parentTheme` — not the first link as the
claim states. -/
theorem c4_counterexample :
    detectTheme
        ["/wp-content/themes/alpha/style.css",
         "/wp-content/themes/beta/style.css"] none none =
      some { name := "beta", version := none, isChild := true,
             parentTheme := some "alpha" } ∧
    (detectTheme
        ["/wp-content/themes/alpha/style.css",
         "/wp-content/themes/beta/style.css"] none none).map Theme.name ≠
      some "alpha" := by
  constructor
  · rfl
  · decide

/-- C4 (amended).  The LAST stylesheet link whose path contains the
theme-content marker determines the resolved theme's name and version
(Method 1 overwrites on every match); the meta-tag signal and the
parent/child pass may only fill the remaining fields, never the name or
version. -/
theorem c4_last_stylesheet_wins (styleHrefs : List String)
    (mt mg : Option String) (t0 : Theme)
    (h : (styleHrefs.filterMap themeCandidateOf).getLast? = some t0) :
    ∃ t, detectTheme styleHrefs mt mg = some t ∧
      t.name = t0.name ∧ t.version = t0.version := by
  have hm1 : detectThemeM1 styleHrefs = some t0 := by
    have heq : (fun (acc : Option Theme) (href : String) =>
        match themeContentMatch href with
        | some name =>
          some { name := name, version := litCap "?ver=" isDigitDot href,
                 isChild := false }
        | none => acc) = lastMatchStep themeCandidateOf := by
      funext acc href
      cases hm : themeContentMatch href <;>
        simp [lastMatchStep, themeCandidateOf, hm]
    unfold detectThemeM1
    rw [heq, foldl_lastMatch themeCandidateOf styleHrefs none, h]
    rfl
  have hm3 : (detectThemeM3 styleHrefs t0).name = t0.name ∧
      (detectThemeM3 styleHrefs t0).version = t0.version := by
    refine ⟨?_, ?_⟩ <;> simp only [detectThemeM3] <;> split <;>
      first
      | rfl
      | (split <;> rfl)
  refine ⟨detectThemeM3 styleHrefs t0, ?_, hm3.1, hm3.2⟩
  unfold detectTheme
  rw [hm1]
  rfl

/-- C4 witness: a single theme stylesheet (also the last) resolves to that
theme with its `?ver=` version. -/
theorem c4_last_stylesheet_wins_witness :
    ∃ t, detectTheme ["/wp-content/themes/twentytwenty/style.css?ver=1.5"]
        none none = some t ∧
      t.name = "twentytwenty" ∧ t.version = some "1.5" :=
  c4_last_stylesheet_wins
    ["/wp-content/themes/twentytwenty/style.css?ver=1.5"] none none
    { name := "twentytwenty", version := some "1.5", isChild := false }
    (by decide)

/-! ## Exact-name uniqueness of the plugin list (C1) -/

theorem nodup_push {ps : List Plugin} {p : Plugin}
    (h : (ps.map Plugin.name).Nodup) (hnew : ∀ q ∈ ps, q.name ≠ p.name) :
    (((ps ++ [p]).map Plugin.name)).Nodup := by
  rw [List.map_append]
  refine List.Nodup.append h (List.nodup_singleton _) ?_
  intro x hx hx2
  simp only [List.map_cons, List.map_nil, List.mem_singleton] at hx2
  rcases List.mem_map.mp hx with ⟨q, hq, hqn⟩
  exact hnew q hq (by rw [hqn, hx2])

theorem any_name_eq_false {ps : List Plugin} {n : String}
    (h : ¬ ps.any (fun p => p.name == n) = true) : ∀ q ∈ ps, q.name ≠ n := by
  intro q hq hqe
  exact h (List.any_eq_true.mpr ⟨q, hq, by simp [hqe]⟩)

theorem any_lower_eq_false {ps : List Plugin} {n : String}
    (h : ¬ ps.any (fun p => jsToLower p.name == jsToLower n) = true) :
    ∀ q ∈ ps, q.name ≠ n := by
  intro q hq hqe
  exact h (List.any_eq_true.mpr ⟨q, hq, by simp [hqe]⟩)

theorem mergeByNameStep_nodup {ps : List Plugin} {p : Plugin}
    (h : (ps.map Plugin.name).Nodup) :
    ((mergeByNameStep ps p).map Plugin.name).Nodup := by
  unfold mergeByNameStep
  by_cases hdup : ps.any (fun q => q.name == p.name) = true
  · rw [if_pos hdup]; exact h
  · rw [if_neg hdup]
    exact nodup_push h (any_name_eq_false hdup)

theorem method1Step_nodup {ps : List Plugin} {t : AssetTag}
    (h : (ps.map Plugin.name).Nodup) :
    ((method1Step ps t).map Plugin.name).Nodup := by
  unfold method1Step
  by_cases hinc : jsIncludes t.url "/wp-content/plugins/" = true
  · rw [if_pos hinc]
    cases hm : litCap "/wp-content/plugins/" (fun x => decide (x ≠ '/')) t.url with
    | none => exact h
    | some name =>
      show (List.map Plugin.name
        (if (ps.any fun p => jsToLower p.name == jsToLower name) = true then ps
         else ps ++ [createPlugin name (assetVersionMatch t.url)])).Nodup
      by_cases hdup : ps.any (fun p => jsToLower p.name == jsToLower name) = true
      · rw [if_pos hdup]; exact h
      · rw [if_neg hdup]
        exact nodup_push h (any_lower_eq_false hdup)
  · rw [if_neg hinc]; exact h

theorem method2Step_nodup {ps : List Plugin} {c : String}
    (h : (ps.map Plugin.name).Nodup) :
    ((method2Step ps c).map Plugin.name).Nodup := by
  unfold method2Step
  cases hm : commentPluginMatch c with
  | none => exact h
  | some nv =>
    show (List.map Plugin.name
      (if (ps.any fun p => p.name == nv.1) = true then ps
       else ps ++ [createPlugin nv.1 (some nv.2)])).Nodup
    by_cases hdup : ps.any (fun p => p.name == nv.1) = true
    · rw [if_pos hdup]; exact h
    · rw [if_neg hdup]
      exact nodup_push h (any_name_eq_false hdup)

theorem method3Step_nodup {ps : List Plugin} {t : GenTag}
    (h : (ps.map Plugin.name).Nodup) :
    ((method3Step ps t).map Plugin.name).Nodup := by
  unfold method3Step
  cases hn : jsOrS (t.nameAttr.map fun s => (⟨stripFirstGen s.data⟩ : String))
      (t.relAttr.map fun s => (⟨stripFirstGen s.data⟩ : String)) with
  | none => exact h
  | some n =>
    cases hv : jsOrS t.content (t.href.bind (litCap "?ver=" isDigitDot)) with
    | none => exact h
    | some v =>
      show (List.map Plugin.name
        (if (n ≠ "" && v ≠ "" && !(ps.any fun p => p.name == n)) = true then
          ps ++ [createPlugin n (some v)]
         else ps)).Nodup
      by_cases hc : (n ≠ "" && v ≠ "" && !(ps.any fun p => p.name == n)) = true
      · rw [if_pos hc]
        simp only [Bool.and_eq_true, Bool.not_eq_true'] at hc
        refine nodup_push h (any_name_eq_false ?_)
        show ¬(ps.any fun p => p.name == n) = true
        rw [hc.2]
        simp
      · rw [if_neg hc]
        exact h

theorem method4Step_nodup {ps : List Plugin} {ns : String}
    (h : (ps.map Plugin.name).Nodup) :
    ((method4Step ps ns).map Plugin.name).Nodup := by
  unfold method4Step
  by_cases hc : (ns ≠ "wp/v2" && !(jsStartsWith ns "core")) = true
  · rw [if_pos hc]
    by_cases hdup : ps.any (fun p => p.name == splitSlashHead ns) = true
    · rw [if_pos hdup]; exact h
    · rw [if_neg hdup]
      exact nodup_push h (any_name_eq_false hdup)
  · rw [if_neg hc]; exact h

theorem foldl_preserves {α β : Type} (P : α → Prop) {f : α → β → α} :
    ∀ (l : List β), (∀ acc x, x ∈ l → P acc → P (f acc x)) →
      ∀ init, P init → P (l.foldl f init)
  | [], _, _, h => h
  | x :: rest, hf, init, h => by
    rw [List.foldl_cons]
    exact foldl_preserves P rest
      (fun acc y hy hacc => hf acc y (List.mem_cons_of_mem x hy) hacc) _
      (hf init x (List.mem_cons_self x rest) h)

theorem registryUpdate_fields (net : Net) (p : Plugin) :
    (registryUpdate net p).1.name = p.name ∧
      (registryUpdate net p).1.version = p.version ∧
      (registryUpdate net p).1.versionDetected = p.versionDetected := by
  simp only [registryUpdate]
  split <;> exact ⟨rfl, rfl, rfl⟩

theorem map_registry_names (net : Net) (ps : List Plugin) :
    (((ps.map (registryUpdate net)).map (·.1)).map Plugin.name) =
      ps.map Plugin.name := by
  induction ps with
  | nil => rfl
  | cons p rest ih =>
    simp only [List.map_cons, List.cons.injEq]
    exact ⟨(registryUpdate_fields net p).1, ih⟩

/-- C1 (amended).  The final report never holds two plugins with the exact
same raw name: every detection method's push is guarded by an exact-name
membership test (case-insensitive, hence stronger, for the asset-path
method).  Distinct raw names with equal normalized slugs can however
coexist (see the counterexample). -/
theorem c1_exact_name_uniqueness (req : ReqBody) (net : Net)
    (parse : String → Doc) :
    ((reportPlugins (scrapePOST req net parse).1).map Plugin.name).Nodup := by
  have hsucc : ∀ (u : String) (resp : HttpResp) (doc : Doc),
      ((reportPlugins (scrapeSuccess u resp net doc).1).map Plugin.name).Nodup := by
    intro u resp doc
    simp only [scrapeSuccess, reportPlugins]
    have h3 : (((doc.generatorTags.foldl method3Step
        (doc.pluginComments.foldl method2Step
          (doc.assetTags.foldl method1Step []))).map Plugin.name)).Nodup := by
      refine foldl_preserves (fun ps : List Plugin => (ps.map Plugin.name).Nodup) _
        (fun acc x _ h => method3Step_nodup h) _ ?_
      refine foldl_preserves (fun ps : List Plugin => (ps.map Plugin.name).Nodup) _
        (fun acc x _ h => method2Step_nodup h) _ ?_
      refine foldl_preserves (fun ps : List Plugin => (ps.map Plugin.name).Nodup) _
        (fun acc x _ h => method1Step_nodup h) _ ?_
      simp
    refine foldl_preserves (fun ps : List Plugin => (ps.map Plugin.name).Nodup) _
      (fun acc x _ h => mergeByNameStep_nodup h) _ ?_
    refine foldl_preserves (fun ps : List Plugin => (ps.map Plugin.name).Nodup) _
      (fun acc x _ h => mergeByNameStep_nodup h) _ ?_
    dsimp only
    rw [map_registry_names]
    split
    · exact h3
    · split
      · split
        · exact foldl_preserves (fun ps : List Plugin => (ps.map Plugin.name).Nodup) _
            (fun acc x _ h => method4Step_nodup h) _ h3
        · exact h3
      · exact h3
  match req with
  | .invalid => simp [scrapePOST, reportPlugins]
  | .noUrl => simp [scrapePOST, reportPlugins]
  | .url u =>
    by_cases h1 : u = ""
    · simp [scrapePOST, h1, reportPlugins]
    · by_cases h2 : (parseURL u).isNone = true
      · simp [scrapePOST, h1, h2, reportPlugins]
      · cases hnet : net u with
        | none => simp [scrapePOST, h1, h2, hnet, reportPlugins]
        | some resp =>
          by_cases h4 : respOk resp = true
          · simpa [scrapePOST, h1, h2, hnet, h4] using hsucc u resp (parse resp.body)
          · simp [scrapePOST, h1, h2, hnet, h4, reportPlugins]

/-- The initial response of the C1 scenario: a page whose only asset is a
RevSlider script, served plainly. -/
def c1Resp : HttpResp :=
  { status := 200, statusText := "OK",
    body := "<script src=\"/wp-content/plugins/revslider/public/assets/js/rs6.min.js?ver=6.5.0\"></script>" }

/-- The parsed view of `c1Resp.body`: one script tag. -/
def c1Doc : Doc :=
  { assetTags := [⟨false, "/wp-content/plugins/revslider/public/assets/js/rs6.min.js?ver=6.5.0"⟩] }

/-- Network for the C1 scenario: only the target itself resolves. -/
def c1Net : Net := fun v => if v = "https://example.com" then some c1Resp else none

/-- C1 counterexample: the same RevSlider asset is picked up by the
asset-path method under the path name `revslider` and by the premium
fingerprint under the display name `RevSlider`; the premium merge
deduplicates by exact name only, so the final report carries two entries
whose normalized slugs are both `revslider`. -/
theorem c1_counterexample :
    (reportPlugins (scrapePOST (.url "https://example.com") c1Net
        (fun _ => c1Doc)).1).map Plugin.name = ["revslider", "RevSlider"] ∧
    normalizePluginSlug "revslider" = normalizePluginSlug "RevSlider" ∧
    ¬ ((reportPlugins (scrapePOST (.url "https://example.com") c1Net
        (fun _ => c1Doc)).1).map fun p => normalizePluginSlug p.name).Nodup := by
  refine ⟨by decide, by decide, by decide⟩

/-! ## Candidate merging (C2) -/

/-- The parsed view of the C2 scenario's page: one Akismet stylesheet with
no version information. -/
def c2Doc : Doc :=
  { assetTags := [⟨true, "/wp-content/plugins/akismet/css/akismet.css"⟩] }

/-- Network for the C2 scenario: the target page, a directory listing
exposing `akismet/`, and a readme with a semver-valid stable tag. -/
def c2Net : Net := fun v =>
  if v = "https://example.org" then
    some { status := 200, statusText := "OK",
           body := "<link href=\"/wp-content/plugins/akismet/css/akismet.css\">" }
  else if v = "https://example.org/wp-content/plugins/" then
    some { status := 200, statusText := "OK",
           dirEntries := [⟨"akismet/", "akismet/"⟩] }
  else if v = "https://example.org/wp-content/plugins/akismet/readme.txt" then
    some { status := 200, statusText := "OK", body := "Stable tag: 5.3.0" }
  else none

/-- C2 counterexample: the directory scan supplies a semver-valid,
confirmed version `5.3.0` for `akismet`, but because an unconfirmed
`akismet` (from the asset path, no version) already exists, the whole
directory candidate is dropped — the final record keeps `version "Unknown"`
with `versionDetected = false`, so a valid version from a source does NOT
make the final candidate confirmed, and the confirmed version never
replaces the unconfirmed one. -/
theorem c2_counterexample :
    (scanPluginDirectory c2Net "https://example.org").1 =
      [{ name := "akismet", version := "5.3.0", versionDetected := true }] ∧
    semverValid "5.3.0" = true ∧
    reportPlugins (scrapePOST (.url "https://example.org") c2Net
        (fun _ => c2Doc)).1 =
      [{ name := "akismet", version := "Unknown", versionDetected := false }] := by
  refine ⟨by decide, by decide, by decide⟩

/-- C2 (amended).  The route has no field-level merge: a new candidate
whose exact name matches an existing entry is dropped wholly — it fills no
missing field and never replaces a version, confirmed or not, so the first
candidate for a name wins outright.  Versions are only ever upgraded in
place inside the directory scan, where a readme match sets the candidate's
version and marks it detected; `versionDetected` records that the
candidate's own source supplied a version string, without semver
validation. -/
theorem c2_first_candidate_wins (ps : List Plugin) (p q : Plugin)
    (body : String) (w : String) :
    (q ∈ ps → q.name = p.name → mergeByNameStep ps p = ps) ∧
    (q ∈ ps → q ∈ mergeByNameStep ps p) ∧
    (readmeVersionMatch body = some w →
      applyReadme p body = { p with version := w, versionDetected := true }) := by
  refine ⟨?_, ?_, ?_⟩
  · intro hq hname
    unfold mergeByNameStep
    rw [if_pos (List.any_eq_true.mpr ⟨q, hq, by simp [hname]⟩)]
  · intro hq
    unfold mergeByNameStep
    split
    · exact hq
    · exact List.mem_append_left _ hq
  · intro hw
    unfold applyReadme
    rw [hw]

/-- C2 witness: a duplicate confirmed `akismet` candidate is dropped by the
merge step, and the readme probe upgrades a pending candidate in place. -/
theorem c2_first_candidate_wins_witness :
    mergeByNameStep [createPlugin "akismet" none]
        (createPlugin "akismet" (some "5.3.0")) =
      [createPlugin "akismet" none] ∧
    applyReadme (createPlugin "akismet" none) "Stable tag: 5.3.0" =
      { createPlugin "akismet" none with
          version := "5.3.0", versionDetected := true } :=
  ⟨(c2_first_candidate_wins [createPlugin "akismet" none]
      (createPlugin "akismet" (some "5.3.0")) (createPlugin "akismet" none)
      "" "").1 (by decide) (by decide),
   (c2_first_candidate_wins [] (createPlugin "akismet" none)
      (createPlugin "akismet" none) "Stable tag: 5.3.0" "5.3.0").2.2
      (by decide)⟩

/-! ## The version-detected flag (C10): every version a source supplies is
a nonempty capture -/

/-- The invariant relating `versionDetected` to the `"Unknown"` sentinel. -/
def versionInv (p : Plugin) : Prop :=
  p.versionDetected = true ↔ p.version ≠ "Unknown"

theorem capHere_some {ci : Bool} {pre : List Char} {ws? : Option Nat}
    {good : Char → Bool} {l cap : List Char}
    (h : capHere ci pre ws? good l = some cap) :
    cap ≠ [] ∧ ∀ c ∈ cap, good c = true := by
  unfold capHere at h
  by_cases hp : (if ci then isPreCI pre l else isPre pre l) = true
  · rw [if_pos hp] at h
    cases hs : capStart ws? (List.drop pre.length l) with
    | none => rw [hs] at h; cases h
    | some start =>
      rw [hs] at h
      dsimp only at h
      by_cases he : (List.takeWhile good start).isEmpty = true
      · rw [if_pos he] at h
        cases h
      · rw [if_neg he] at h
        injection h with h
        subst h
        refine ⟨fun hcap => he (by rw [hcap]; rfl),
          fun c hc => List.mem_takeWhile_imp hc⟩
  · rw [if_neg hp] at h
    cases h

theorem litWsCapAux_some {ci : Bool} {pre : List Char} {ws? : Option Nat}
    {good : Char → Bool} : ∀ {l cap : List Char},
    litWsCapAux ci pre ws? good l = some cap →
    cap ≠ [] ∧ ∀ c ∈ cap, good c = true := by
  intro l
  induction l with
  | nil => intro cap h; cases h
  | cons c rest ih =>
    intro cap h
    rw [litWsCapAux] at h
    cases hh : capHere ci pre ws? good (c :: rest) with
    | some cap2 =>
      rw [hh] at h
      injection h with h
      exact h ▸ capHere_some hh
    | none =>
      rw [hh] at h
      exact ih h

theorem asString_ne_empty {l : List Char} (h : l ≠ []) : l.asString ≠ "" := by
  intro he
  exact h (by simpa [List.asString] using congrArg String.data he)

theorem litCap_some {pre s r : String} {good : Char → Bool}
    (h : litCap pre good s = some r) :
    r ≠ "" ∧ ∀ c ∈ r.data, good c = true := by
  unfold litCap at h
  rcases Option.map_eq_some'.mp h with ⟨cap, hcap, hr⟩
  obtain ⟨hne, hgood⟩ := litWsCapAux_some hcap
  subst hr
  exact ⟨asString_ne_empty hne, by simpa [List.asString] using hgood⟩

theorem litWsCap_some {pre s r : String} {minWs : Nat} {good : Char → Bool}
    (h : litWsCap pre minWs good s = some r) :
    r ≠ "" ∧ ∀ c ∈ r.data, good c = true := by
  unfold litWsCap at h
  rcases Option.map_eq_some'.mp h with ⟨cap, hcap, hr⟩
  obtain ⟨hne, hgood⟩ := litWsCapAux_some hcap
  subst hr
  exact ⟨asString_ne_empty hne, by simpa [List.asString] using hgood⟩

theorem markVerHere_some {mark c : Char} {rest cap : List Char}
    (h : markVerHere mark c rest = some cap) : cap ≠ [] := by
  unfold markVerHere at h
  by_cases hm : c = mark
  · rw [if_pos hm] at h
    dsimp only at h
    cases hrev : ((rest.takeWhile isDigitDot).reverse) with
    | nil => rw [hrev] at h; cases h
    | cons e revCap =>
      rw [hrev] at h
      dsimp only at h
      by_cases he : e = '.'
      · rw [if_pos he] at h
        by_cases hemp : revCap.isEmpty = true
        · rw [if_pos hemp] at h
          cases h
        · rw [if_neg hemp] at h
          by_cases hjs : minJsCss (List.drop
              (rest.takeWhile isDigitDot).length rest) = true
          · rw [if_pos hjs] at h
            injection h with h
            subst h
            intro hc
            rw [List.reverse_eq_nil_iff] at hc
            exact hemp (by rw [hc]; rfl)
          · rw [if_neg hjs] at h
            cases h
      · rw [if_neg he] at h
        cases h
  · rw [if_neg hm] at h
    cases h

theorem markVer_some {mark : Char} : ∀ {l cap : List Char},
    markVerAux mark l = some cap → cap ≠ [] := by
  intro l
  induction l with
  | nil => intro cap h; cases h
  | cons c rest ih =>
    intro cap h
    rw [markVerAux] at h
    cases hh : markVerHere mark c rest with
    | some cap2 =>
      rw [hh] at h
      injection h with h
      exact h ▸ markVerHere_some hh
    | none =>
      rw [hh] at h
      exact ih h

theorem versionSepHere_some {l cap : List Char}
    (h : versionSepHere l = some cap) : cap ≠ [] := by
  unfold versionSepHere at h
  by_cases hp : isPreCI "version".data l = true
  · rw [if_pos hp] at h
    cases hd : List.drop 7 l with
    | nil => rw [hd] at h; cases h
    | cons d after =>
      rw [hd] at h
      dsimp only at h
      by_cases hsep : (d = '=' || d = '/' || d = '-') = true
      · rw [if_pos hsep] at h
        by_cases hemp : (after.takeWhile isDigitDot).isEmpty = true
        · rw [if_pos hemp] at h
          cases h
        · rw [if_neg hemp] at h
          injection h with h
          subst h
          exact fun hc => hemp (by rw [hc]; rfl)
      · rw [if_neg hsep] at h
        cases h
  · rw [if_neg hp] at h
    cases h

theorem versionSepVerAux_some : ∀ {l cap : List Char},
    versionSepVerAux l = some cap → cap ≠ [] := by
  intro l
  induction l with
  | nil => intro cap h; cases h
  | cons c rest ih =>
    intro cap h
    rw [versionSepVerAux] at h
    cases hh : versionSepHere (c :: rest) with
    | some cap2 =>
      rw [hh] at h
      injection h with h
      exact h ▸ versionSepHere_some hh
    | none =>
      rw [hh] at h
      exact ih h

theorem closeHere_some {pre : List Char} {good : Char → Bool} {close : Char}
    {l cap : List Char} (h : closeHere pre good close l = some cap) :
    cap ≠ [] := by
  unfold closeHere at h
  by_cases hp : isPre pre l = true
  · rw [if_pos hp] at h
    dsimp only at h
    by_cases hemp : ((List.drop pre.length l).takeWhile good).isEmpty = true
    · rw [if_pos hemp] at h
      cases h
    · rw [if_neg hemp] at h
      cases hd : List.drop ((List.drop pre.length l).takeWhile good).length
          (List.drop pre.length l) with
      | nil => rw [hd] at h; cases h
      | cons d rest2 =>
        rw [hd] at h
        dsimp only at h
        by_cases hc : d = close
        · rw [if_pos hc] at h
          injection h with h
          subst h
          exact fun hc2 => hemp (by rw [hc2]; rfl)
        · rw [if_neg hc] at h
          cases h
  · rw [if_neg hp] at h
    cases h

theorem litCapCloseAux_some {pre : List Char} {good : Char → Bool}
    {close : Char} : ∀ {l cap : List Char},
    litCapCloseAux pre good close l = some cap → cap ≠ [] := by
  intro l
  induction l with
  | nil => intro cap h; cases h
  | cons c rest ih =>
    intro cap h
    rw [litCapCloseAux] at h
    cases hh : closeHere pre good close (c :: rest) with
    | some cap2 =>
      rw [hh] at h
      injection h with h
      exact h ▸ closeHere_some hh
    | none =>
      rw [hh] at h
      exact ih h

theorem lazyMidVer_some {pre mid s v : String}
    (h : lazyMidVer pre mid s = some v) : v ≠ "" := by
  unfold lazyMidVer at h
  rcases Option.map_eq_some'.mp h with ⟨cap, hcap, hv⟩
  rcases List.exists_of_findSome?_eq_some hcap with ⟨p, _, hp⟩
  rcases List.exists_of_findSome?_eq_some hp with ⟨p2, _, hp2⟩
  subst hv
  apply asString_ne_empty
  by_cases hemp : ((List.drop (p2 + mid.data.length)
      ((List.drop (p + pre.data.length) s.data).takeWhile
        (· ≠ '\n'))).takeWhile isDigitDot).isEmpty = true
  · rw [if_pos hemp] at hp2
    cases hp2
  · rw [if_neg hemp] at hp2
    injection hp2 with hp2
    subst hp2
    exact fun hc => hemp (by rw [hc]; rfl)

theorem dotVer_some {s v : String} (h : dotVer s = some v) : v ≠ "" := by
  unfold dotVer at h
  rcases Option.map_eq_some'.mp h with ⟨cap, hcap, hv⟩
  subst hv
  exact asString_ne_empty (markVer_some hcap)

theorem dashVer_some {s v : String} (h : dashVer s = some v) : v ≠ "" := by
  unfold dashVer at h
  rcases Option.map_eq_some'.mp h with ⟨cap, hcap, hv⟩
  subst hv
  exact asString_ne_empty (markVer_some hcap)

theorem versionSepVer_some {s v : String} (h : versionSepVer s = some v) :
    v ≠ "" := by
  unfold versionSepVer at h
  rcases Option.map_eq_some'.mp h with ⟨cap, hcap, hv⟩
  subst hv
  exact asString_ne_empty (versionSepVerAux_some hcap)

theorem litCapClose_some {pre s v : String} {good : Char → Bool} {close : Char}
    (h : litCapClose pre good close s = some v) : v ≠ "" := by
  unfold litCapClose at h
  rcases Option.map_eq_some'.mp h with ⟨cap, hcap, hv⟩
  subst hv
  exact asString_ne_empty (litCapCloseAux_some hcap)

theorem assetVersionMatch_some {src v : String}
    (h : assetVersionMatch src = some v) : v ≠ "" := by
  unfold assetVersionMatch at h
  cases h1 : litCap "?ver=" isDigitDot src with
  | some r =>
    rw [h1] at h
    injection h with h
    exact h ▸ (litCap_some h1).1
  | none =>
    rw [h1] at h
    cases h2 : dotVer src with
    | some r =>
      rw [h2] at h
      injection h with h
      exact h ▸ dotVer_some h2
    | none =>
      rw [h2] at h
      cases h3 : dashVer src with
      | some r =>
        rw [h3] at h
        injection h with h
        exact h ▸ dashVer_some h3
      | none =>
        rw [h3] at h
        exact versionSepVer_some h

theorem readmeVersionMatch_some {body w : String}
    (h : readmeVersionMatch body = some w) :
    w ≠ "" ∧ ∀ c ∈ w.data, isDigitDot c = true := by
  unfold readmeVersionMatch at h
  cases h1 : litWsCap "Stable tag:" 0 isDigitDot body with
  | some r =>
    rw [h1] at h
    injection h with h
    exact h ▸ litWsCap_some h1
  | none =>
    rw [h1] at h
    exact litWsCap_some h

theorem readmeVersionMatch_ne_unknown {body w : String}
    (h : readmeVersionMatch body = some w) : w ≠ "Unknown" := by
  intro hw
  subst hw
  have := (readmeVersionMatch_some h).2 'U' (by decide)
  simp [isDigitDot] at this

theorem quotedCap_some {l cap r : List Char}
    (h : quotedCap l = some (cap, r)) : cap ≠ [] := by
  unfold quotedCap at h
  cases l with
  | nil => cases h
  | cons c rest =>
    try dsimp only at h
    by_cases hc : c = quoteChar
    · rw [if_pos hc] at h
      try dsimp only at h
      by_cases hemp : (rest.takeWhile (· ≠ quoteChar)).isEmpty = true
      · rw [if_pos hemp] at h
        cases h
      · rw [if_neg hemp] at h
        cases hd : List.drop (rest.takeWhile (· ≠ quoteChar)).length rest with
        | nil => rw [hd] at h; cases h
        | cons d r2 =>
          rw [hd] at h
          try dsimp only at h
          by_cases hd2 : d = quoteChar
          · rw [if_pos hd2] at h
            injection h with h
            cases h
            exact fun hc2 => hemp (by rw [hc2]; rfl)
          · rw [if_neg hd2] at h
            cases h
    · rw [if_neg hc] at h
      cases h

theorem quotedPluginHere_some {l : List Char} {nv : List Char × List Char}
    (h : quotedPluginHere l = some nv) : nv.2 ≠ [] := by
  unfold quotedPluginHere at h
  by_cases hp : isPre "plugin".data l = true
  · rw [if_pos hp] at h
    try dsimp only at h
    by_cases hw1 : ((List.drop 6 l).takeWhile isWsChar).isEmpty = true
    · rw [if_pos hw1] at h
      cases h
    · rw [if_neg hw1] at h
      cases hq1 : quotedCap (List.drop ((List.drop 6 l).takeWhile isWsChar).length
          (List.drop 6 l)) with
      | none => rw [hq1] at h; cases h
      | some pr1 =>
        obtain ⟨name, r1⟩ := pr1
        rw [hq1] at h
        try dsimp only at h
        by_cases hw2 : (r1.takeWhile isWsChar).isEmpty = true
        · rw [if_pos hw2] at h
          cases h
        · rw [if_neg hw2] at h
          by_cases hv : isPre "version".data
              (List.drop (r1.takeWhile isWsChar).length r1) = true
          · rw [if_pos hv] at h
            try dsimp only at h
            by_cases hw3 : ((List.drop 7 (List.drop (r1.takeWhile isWsChar).length
                r1)).takeWhile isWsChar).isEmpty = true
            · rw [if_pos hw3] at h
              cases h
            · rw [if_neg hw3] at h
              cases hq2 : quotedCap (List.drop ((List.drop 7
                  (List.drop (r1.takeWhile isWsChar).length r1)).takeWhile
                    isWsChar).length (List.drop 7
                  (List.drop (r1.takeWhile isWsChar).length r1))) with
              | none => rw [hq2] at h; cases h
              | some pr2 =>
                obtain ⟨ver, r4⟩ := pr2
                rw [hq2] at h
                try dsimp only at h
                injection h with h
                subst h
                exact quotedCap_some hq2
          · rw [if_neg hv] at h
            cases h
  · rw [if_neg hp] at h
    cases h

theorem quotedPluginAux_some : ∀ {l : List Char} {nv : List Char × List Char},
    quotedPluginAux l = some nv → nv.2 ≠ [] := by
  intro l
  induction l with
  | nil => intro nv h; cases h
  | cons c rest ih =>
    intro nv h
    rw [quotedPluginAux] at h
    cases hh : quotedPluginHere (c :: rest) with
    | some nv2 =>
      rw [hh] at h
      injection h with h
      exact h ▸ quotedPluginHere_some hh
    | none =>
      rw [hh] at h
      exact ih h

theorem wsThenLineCap_some {l cap : List Char}
    (h : wsThenLineCap l = some cap) : cap ≠ [] := by
  unfold wsThenLineCap at h
  rcases List.exists_of_findSome?_eq_some h with ⟨back, _, hb⟩
  try dsimp only at hb
  by_cases hemp : ((List.drop ((l.takeWhile isWsChar).length - back) l).takeWhile
      (· ≠ '\n')).isEmpty = true
  · rw [if_pos hemp] at hb
    cases hb
  · rw [if_neg hemp] at hb
    injection hb with hb
    subst hb
    exact fun hc => hemp (by rw [hc]; rfl)

theorem pluginNameVerHere_some {l : List Char} {nv : List Char × List Char}
    (h : pluginNameVerHere l = some nv) : nv.2 ≠ [] := by
  unfold pluginNameVerHere at h
  by_cases hp : isPre "Plugin Name:".data l = true
  · rw [if_pos hp] at h
    rcases List.exists_of_findSome?_eq_some h with ⟨back, _, hb⟩
    try dsimp only at hb
    rcases List.exists_of_findSome?_eq_some hb with ⟨shrink, _, hsk⟩
    try dsimp only at hsk
    split at hsk
    · cases hsk
    · rcases List.exists_of_findSome?_eq_some hsk with ⟨p, _, hpv⟩
      rcases Option.map_eq_some'.mp hpv with ⟨ver, hver, hnv⟩
      subst hnv
      exact wsThenLineCap_some hver
  · rw [if_neg hp] at h
    cases h

theorem pluginNameVerAux_some : ∀ {l : List Char} {nv : List Char × List Char},
    pluginNameVerAux l = some nv → nv.2 ≠ [] := by
  intro l
  induction l with
  | nil => intro nv h; cases h
  | cons c rest ih =>
    intro nv h
    rw [pluginNameVerAux] at h
    cases hh : pluginNameVerHere (c :: rest) with
    | some nv2 =>
      rw [hh] at h
      injection h with h
      exact h ▸ pluginNameVerHere_some hh
    | none =>
      rw [hh] at h
      exact ih h

theorem commentPluginMatch_some {c : String} {nv : String × String}
    (h : commentPluginMatch c = some nv) : nv.2 ≠ "" := by
  unfold commentPluginMatch at h
  cases h1 : quotedPluginAux c.data with
  | some pr =>
    rw [h1] at h
    try dsimp only at h
    injection h with h
    subst h
    exact asString_ne_empty (quotedPluginAux_some h1)
  | none =>
    rw [h1] at h
    cases h2 : pluginNameVerAux c.data with
    | some pr =>
      rw [h2] at h
      try dsimp only at h
      injection h with h
      subst h
      exact asString_ne_empty (pluginNameVerAux_some h2)
    | none =>
      rw [h2] at h
      cases h

theorem premiumPattern_some : ∀ np ∈ premiumPluginPatterns, ∀ s v,
    firstPatternMatch np.2 s = some v → v ≠ "" := by
  intro np hnp s v h
  unfold firstPatternMatch at h
  rcases List.exists_of_findSome?_eq_some h with ⟨f, hf, hfv⟩
  unfold premiumPluginPatterns at hnp
  rcases List.mem_cons.mp hnp with rfl | hnp
  · rcases List.mem_cons.mp hf with rfl | hf
    · exact (litCap_some hfv).1
    rcases List.mem_cons.mp hf with rfl | hf
    · exact (litCap_some hfv).1
    rcases List.mem_cons.mp hf with rfl | hf
    · exact lazyMidVer_some hfv
    rcases List.mem_cons.mp hf with rfl | hf
    · exact litCapClose_some hfv
    cases hf
  rcases List.mem_cons.mp hnp with rfl | hnp
  · rcases List.mem_cons.mp hf with rfl | hf
    · exact (litCap_some hfv).1
    rcases List.mem_cons.mp hf with rfl | hf
    · exact (litCap_some hfv).1
    rcases List.mem_cons.mp hf with rfl | hf
    · exact litCapClose_some hfv
    cases hf
  rcases List.mem_cons.mp hnp with rfl | hnp
  · rcases List.mem_cons.mp hf with rfl | hf
    · exact (litCap_some hfv).1
    rcases List.mem_cons.mp hf with rfl | hf
    · exact (litCap_some hfv).1
    cases hf
  rcases List.mem_cons.mp hnp with rfl | hnp
  · rcases List.mem_cons.mp hf with rfl | hf
    · exact (litCap_some hfv).1
    rcases List.mem_cons.mp hf with rfl | hf
    · exact (litCap_some hfv).1
    cases hf
  cases hnp

theorem createPlugin_inv {n : String} {v : Option String}
    (h : v = none ∨ ∃ s, v = some s ∧ s ≠ "") :
    versionInv (createPlugin n v) := by
  unfold versionInv
  rcases h with rfl | ⟨s, rfl, hs⟩
  · simp [createPlugin]
  · simp [createPlugin, hs]

theorem applyReadme_inv {p : Plugin} {body : String} (h : versionInv p) :
    versionInv (applyReadme p body) := by
  unfold applyReadme
  cases hr : readmeVersionMatch body with
  | none => exact h
  | some w =>
    unfold versionInv
    simp [readmeVersionMatch_ne_unknown hr]

theorem registryUpdate_inv (net : Net) (p : Plugin) (h : versionInv p) :
    versionInv ((registryUpdate net p).1) := by
  unfold versionInv
  rw [(registryUpdate_fields net p).2.1, (registryUpdate_fields net p).2.2]
  exact h

theorem invAll_push {ps : List Plugin} {p : Plugin}
    (h : ∀ q ∈ ps, versionInv q) (hp : versionInv p) :
    ∀ q ∈ ps ++ [p], versionInv q := by
  intro q hq
  rcases List.mem_append.mp hq with hq | hq
  · exact h q hq
  · rw [List.mem_singleton] at hq
    exact hq ▸ hp

theorem method1Step_inv {ps : List Plugin} {t : AssetTag}
    (h : ∀ q ∈ ps, versionInv q) : ∀ q ∈ method1Step ps t, versionInv q := by
  unfold method1Step
  by_cases hinc : jsIncludes t.url "/wp-content/plugins/" = true
  · rw [if_pos hinc]
    cases hm : litCap "/wp-content/plugins/" (fun x => decide (x ≠ '/')) t.url with
    | none => exact h
    | some name =>
      show ∀ q ∈ (if (ps.any fun p => jsToLower p.name == jsToLower name) = true
          then ps else ps ++ [createPlugin name (assetVersionMatch t.url)]),
        versionInv q
      by_cases hdup : ps.any (fun p => jsToLower p.name == jsToLower name) = true
      · rw [if_pos hdup]
        exact h
      · rw [if_neg hdup]
        refine invAll_push h (createPlugin_inv ?_)
        cases hv : assetVersionMatch t.url with
        | none => exact Or.inl rfl
        | some v => exact Or.inr ⟨v, rfl, assetVersionMatch_some hv⟩
  · rw [if_neg hinc]
    exact h

theorem method2Step_inv {ps : List Plugin} {c : String}
    (h : ∀ q ∈ ps, versionInv q) : ∀ q ∈ method2Step ps c, versionInv q := by
  unfold method2Step
  cases hm : commentPluginMatch c with
  | none => exact h
  | some nv =>
    show ∀ q ∈ (if (ps.any fun p => p.name == nv.1) = true then ps
        else ps ++ [createPlugin nv.1 (some nv.2)]), versionInv q
    by_cases hdup : ps.any (fun p => p.name == nv.1) = true
    · rw [if_pos hdup]
      exact h
    · rw [if_neg hdup]
      exact invAll_push h (createPlugin_inv
        (Or.inr ⟨nv.2, rfl, commentPluginMatch_some hm⟩))

theorem method3Step_inv {ps : List Plugin} {t : GenTag}
    (h : ∀ q ∈ ps, versionInv q) : ∀ q ∈ method3Step ps t, versionInv q := by
  unfold method3Step
  cases hn : jsOrS (t.nameAttr.map fun s => (⟨stripFirstGen s.data⟩ : String))
      (t.relAttr.map fun s => (⟨stripFirstGen s.data⟩ : String)) with
  | none => exact h
  | some n =>
    cases hv : jsOrS t.content (t.href.bind (litCap "?ver=" isDigitDot)) with
    | none => exact h
    | some v =>
      show ∀ q ∈ (if (n ≠ "" && v ≠ "" && !(ps.any fun p => p.name == n)) = true
          then ps ++ [createPlugin n (some v)] else ps), versionInv q
      by_cases hc : (n ≠ "" && v ≠ "" && !(ps.any fun p => p.name == n)) = true
      · rw [if_pos hc]
        simp only [Bool.and_eq_true, decide_eq_true_eq] at hc
        exact invAll_push h (createPlugin_inv (Or.inr ⟨v, rfl, hc.1.2⟩))
      · rw [if_neg hc]
        exact h

theorem method4Step_inv {ps : List Plugin} {ns : String}
    (h : ∀ q ∈ ps, versionInv q) : ∀ q ∈ method4Step ps ns, versionInv q := by
  unfold method4Step
  by_cases hc : (ns ≠ "wp/v2" && !(jsStartsWith ns "core")) = true
  · rw [if_pos hc]
    by_cases hdup : ps.any (fun p => p.name == splitSlashHead ns) = true
    · rw [if_pos hdup]
      exact h
    · rw [if_neg hdup]
      exact invAll_push h (createPlugin_inv (Or.inl rfl))
  · rw [if_neg hc]
    exact h

theorem dirEntryStep_inv {ps : List Plugin} {e : DirEntry}
    (h : ∀ q ∈ ps, versionInv q) : ∀ q ∈ dirEntryStep ps e, versionInv q := by
  unfold dirEntryStep
  split
  · dsimp only
    split
    · exact invAll_push h (createPlugin_inv (Or.inl rfl))
    · exact h
  · exact h

theorem mergeByNameStep_inv {ps : List Plugin} {p : Plugin}
    (h : ∀ q ∈ ps, versionInv q) (hp : versionInv p) :
    ∀ q ∈ mergeByNameStep ps p, versionInv q := by
  unfold mergeByNameStep
  split
  · exact h
  · exact invAll_push h hp

theorem scanPluginDirectory_inv (net : Net) (baseUrl : String) :
    ∀ p ∈ (scanPluginDirectory net baseUrl).1, versionInv p := by
  unfold scanPluginDirectory
  dsimp only
  cases hn : net (baseUrl ++ "/wp-content/plugins/") with
  | none =>
    intro p hp
    cases hp
  | some r =>
    dsimp only
    by_cases hok : respOk r = true
    · rw [if_pos hok]
      dsimp only
      intro p hp
      rcases List.mem_map.mp hp with ⟨q, hq, hpq⟩
      have hqinv : versionInv q :=
        foldl_preserves (fun ps : List Plugin => ∀ x ∈ ps, versionInv x) _
          (fun acc x _ hacc => dirEntryStep_inv hacc) _ (by intro x hx; cases hx)
          q hq
      subst hpq
      cases net (baseUrl ++ "/wp-content/plugins/" ++ q.name ++ "/readme.txt") with
      | none => exact hqinv
      | some rr =>
        dsimp only
        by_cases hok2 : respOk rr = true
        · rw [if_pos hok2]
          exact applyReadme_inv hqinv
        · rw [if_neg hok2]
          exact hqinv
    · rw [if_neg hok]
      intro p hp
      cases hp

theorem detectPremiumPlugins_inv (html : String) (scripts : List String) :
    ∀ p ∈ detectPremiumPlugins html scripts, versionInv p := by
  unfold detectPremiumPlugins
  refine foldl_preserves (fun ps : List Plugin => ∀ x ∈ ps, versionInv x) _
    ?_ _ ?_
  · intro acc sc _ hacc
    refine foldl_preserves (fun ps : List Plugin => ∀ x ∈ ps, versionInv x) _
      ?_ _ hacc
    intro acc2 np hnp hacc2
    split
    · exact hacc2
    · split
      · rename_i v hv
        exact invAll_push hacc2 (createPlugin_inv
          (Or.inr ⟨v, rfl, premiumPattern_some np hnp _ v hv⟩))
      · exact hacc2
  · refine foldl_preserves (fun ps : List Plugin => ∀ x ∈ ps, versionInv x) _
      ?_ _ (by intro x hx; cases hx)
    intro acc np hnp hacc
    split
    · exact hacc
    · split
      · rename_i v hv
        exact invAll_push hacc (createPlugin_inv
          (Or.inr ⟨v, rfl, premiumPattern_some np hnp _ v hv⟩))
      · exact hacc

theorem map_registry_inv (net : Net) (ps : List Plugin)
    (h : ∀ q ∈ ps, versionInv q) :
    ∀ q ∈ (ps.map (registryUpdate net)).map (·.1), versionInv q := by
  intro q hq
  rw [List.map_map] at hq
  rcases List.mem_map.mp hq with ⟨p, hp, hpq⟩
  exact hpq ▸ registryUpdate_inv net p (h p hp)

/-- C10.  In every response of the scrape endpoint, a plugin record's
`versionDetected` flag is `true` exactly when its `version` is not the
`"Unknown"` sentinel: candidate creation stores `"Unknown"` with a false
flag when no version was captured (every capture is a nonempty string), and
the readme upgrade stores a digits-and-dots version with a true flag. -/
theorem c10_versionDetected_iff_known (req : ReqBody) (net : Net)
    (parse : String → Doc) :
    ∀ p ∈ reportPlugins (scrapePOST req net parse).1,
      p.versionDetected = true ↔ p.version ≠ "Unknown" := by
  have hsucc : ∀ (u : String) (resp : HttpResp) (doc : Doc),
      ∀ p ∈ reportPlugins (scrapeSuccess u resp net doc).1, versionInv p := by
    intro u resp doc
    simp only [scrapeSuccess, reportPlugins]
    have h3 : ∀ q ∈ doc.generatorTags.foldl method3Step
        (doc.pluginComments.foldl method2Step
          (doc.assetTags.foldl method1Step [])), versionInv q := by
      refine foldl_preserves (fun ps : List Plugin => ∀ x ∈ ps, versionInv x) _
        (fun acc x _ h => method3Step_inv h) _ ?_
      refine foldl_preserves (fun ps : List Plugin => ∀ x ∈ ps, versionInv x) _
        (fun acc x _ h => method2Step_inv h) _ ?_
      refine foldl_preserves (fun ps : List Plugin => ∀ x ∈ ps, versionInv x) _
        (fun acc x _ h => method1Step_inv h) _ ?_
      intro x hx
      cases hx
    refine foldl_preserves (fun ps : List Plugin => ∀ x ∈ ps, versionInv x) _
      (fun acc x hx h => mergeByNameStep_inv h
        (detectPremiumPlugins_inv resp.body doc.scriptBodies x hx)) _ ?_
    refine foldl_preserves (fun ps : List Plugin => ∀ x ∈ ps, versionInv x) _
      (fun acc x hx h => mergeByNameStep_inv h
        (scanPluginDirectory_inv net (urlOrigin u) x hx)) _ ?_
    dsimp only
    apply map_registry_inv
    split
    · exact h3
    · split
      · split
        · exact foldl_preserves (fun ps : List Plugin => ∀ x ∈ ps, versionInv x) _
            (fun acc x _ h => method4Step_inv h) _ h3
        · exact h3
      · exact h3
  match req with
  | .invalid =>
    intro p hp
    cases hp
  | .noUrl =>
    intro p hp
    cases hp
  | .url u =>
    by_cases h1 : u = ""
    · simp [scrapePOST, h1, reportPlugins]
    · by_cases h2 : (parseURL u).isNone = true
      · simp [scrapePOST, h1, h2, reportPlugins]
      · cases hnet : net u with
        | none => simp [scrapePOST, h1, h2, hnet, reportPlugins]
        | some resp =>
          by_cases h4 : respOk resp = true
          · intro p hp
            refine hsucc u resp (parse resp.body) p ?_
            simpa [scrapePOST, h1, h2, hnet, h4] using hp
          · simp [scrapePOST, h1, h2, hnet, h4, reportPlugins]

/-- C10 witness: the Akismet record of the C2 scenario satisfies the
equivalence (unknown version, flag false). -/
theorem c10_versionDetected_iff_known_witness :
    ({ name := "akismet", version := "Unknown",
       versionDetected := false } : Plugin).versionDetected = true ↔
      ({ name := "akismet", version := "Unknown",
         versionDetected := false } : Plugin).version ≠ "Unknown" :=
  c10_versionDetected_iff_known (.url "https://example.org") c2Net
    (fun _ => c2Doc) _ (by decide)
